import Mathlib

/-!
# MockMatch session-management core: a shallow embedding with proofs

This development embeds the session state-management and persistence
subsystem of the MockMatch interview-preparation application
(`src/lib/session-manager.ts` together with its persistence codec) and
proves the specification's testable properties about it.

Modelling conventions:
* JavaScript strings are modelled as `List Char` (`Str`).
* JavaScript `Map` objects are modelled as association lists with the
  `set`-semantics of `Map` (update in place keeps the original insertion
  position; a fresh key is appended).
* JavaScript `Date` values are modelled by their calendar fields at
  millisecond precision (`CalDate`); `Date.prototype.toISOString` and
  ISO-8601 parsing are modelled by `toISOString` / `parseISO`.  The
  model's parser accepts exactly the full `YYYY-MM-DDTHH:MM:SS.mmmZ`
  form that `toISOString` emits; the JavaScript `Date` constructor is
  more lenient (it also accepts date-only forms and numeric epochs),
  but no property below depends on that extra leniency.
* `JSON.stringify` / `JSON.parse` are modelled by `printJson` /
  `jsonParse` over a JSON value tree whose numbers are integers (every
  number the codec produces is an integer score, index or boolean).
  The model's parser does not skip insignificant whitespace and rejects
  fractional numerals; the codec's own wire output contains neither.
* Functions that `throw` are embedded as `Except Str`.
* `uuidv4()` and `new Date()` are effects; the embedded constructors
  take the fresh identifier and the current time as extra parameters.
-/

namespace MockMatch


/-- JavaScript strings, modelled as lists of characters. -/
abbrev Str := List Char

/-- Left brace character (spelled via its code point). -/
def lbrace : Char := Char.ofNat 123

/-- Right brace character (spelled via its code point). -/
def rbrace : Char := Char.ofNat 125

/-- The JSON value tree produced by `JSON.parse` / consumed by
`JSON.stringify`.  Numbers are modelled as integers; every numeric field
of the session wire format is integral in this model. -/
inductive Json where
  | null : Json
  | bool (b : Bool) : Json
  | num (n : Int) : Json
  | str (s : Str) : Json
  | arr (elems : List Json) : Json
  | obj (fields : List (Str × Json)) : Json
deriving BEq

/-! ## Decimal numerals -/

/-- The decimal digit character for a value below ten. -/
def digitChar (d : Nat) : Char := Char.ofNat (48 + d)

/-- The numeric value of a decimal digit character. -/
def digitVal (c : Char) : Nat := c.toNat - 48

/-- Decimal numeral of a natural number, most significant digit first. -/
def printNat (n : Nat) : Str :=
  if n = 0 then [digitChar 0] else (Nat.digits 10 n).reverse.map digitChar

/-- Decimal numeral of an integer (with a leading minus sign when
negative), as `JSON.stringify` and template strings render integral
numbers. -/
def printInt (n : Int) : Str :=
  if n < 0 then '-' :: printNat n.natAbs else printNat n.natAbs

/-- Greedily consume a run of decimal digits, accumulating their value
most-significant-first onto `acc`; stops at the first non-digit. -/
def readDigits : Str → Nat → Nat × Str
  | [], acc => (acc, [])
  | c :: cs, acc =>
    if c.isDigit then readDigits cs (acc * 10 + digitVal c) else (acc, c :: cs)

/-- Parse a non-empty run of decimal digits (the integral JSON numeral
body). -/
def parseNatNum : Str → Option (Nat × Str)
  | [] => none
  | c :: cs => if c.isDigit then some (readDigits (c :: cs) 0) else none

/-! ## JSON printing (the model of `JSON.stringify`) -/

/-- The lowercase hexadecimal digit character for a value below sixteen. -/
def hexDigitChar (d : Nat) : Char :=
  if d < 10 then Char.ofNat (48 + d) else Char.ofNat (87 + d)

/-- Whether a character is a hexadecimal digit. -/
def isHexChar (c : Char) : Bool :=
  c.isDigit || (97 ≤ c.toNat && c.toNat ≤ 102) || (65 ≤ c.toNat && c.toNat ≤ 70)

/-- Escape one character of a JSON string body: quote and backslash get
a backslash escape, control characters become `\u00XX`, everything else
is copied verbatim (as `JSON.stringify` does, up to its choice of the
short escapes for some control characters, which parses identically). -/
def escapeChar (c : Char) : Str :=
  if c = '"' then ['\\', '"']
  else if c = '\\' then ['\\', '\\']
  else if c.toNat < 32 then
    ['\\', 'u', '0', '0', hexDigitChar (c.toNat / 16), hexDigitChar (c.toNat % 16)]
  else [c]

/-- Escape a whole JSON string body. -/
def escString : Str → Str
  | [] => []
  | c :: cs => escapeChar c ++ escString cs

/-- The tail of the `null` keyword. -/
def nullTail : Str := ['u', 'l', 'l']

/-- The tail of the `true` keyword. -/
def trueTail : Str := ['r', 'u', 'e']

/-- The tail of the `false` keyword. -/
def falseTail : Str := ['a', 'l', 's', 'e']

mutual

/-- Print a JSON value without insignificant whitespace, as
`JSON.stringify` does. -/
def printJson : Json → Str
  | .null => 'n' :: nullTail
  | .bool true => 't' :: trueTail
  | .bool false => 'f' :: falseTail
  | .num n => printInt n
  | .str s => '"' :: escString s ++ ['"']
  | .arr es => '[' :: printElems es ++ [']']
  | .obj fs => lbrace :: printFields fs ++ [rbrace]

/-- Print the comma-separated element list of a JSON array. -/
def printElems : List Json → Str
  | [] => []
  | [e] => printJson e
  | e :: es => printJson e ++ ',' :: printElems es

/-- Print the comma-separated member list of a JSON object. -/
def printFields : List (Str × Json) → Str
  | [] => []
  | [(k, v)] => '"' :: escString k ++ '"' :: ':' :: printJson v
  | (k, v) :: fs => ('"' :: escString k ++ '"' :: ':' :: printJson v) ++ ',' :: printFields fs

end

/-! ## JSON parsing (the model of `JSON.parse`) -/

/-- The character a single-character JSON string escape stands for. -/
def escCharOf (e : Char) : Option Char :=
  if e = '"' then some '"'
  else if e = '\\' then some '\\'
  else if e = '/' then some '/'
  else if e = 'b' then some (Char.ofNat 8)
  else if e = 'f' then some (Char.ofNat 12)
  else if e = 'n' then some '\n'
  else if e = 'r' then some (Char.ofNat 13)
  else if e = 't' then some '\t'
  else none

/-- Hexadecimal value of a hex digit character. -/
def hexVal (c : Char) : Nat :=
  if c.isDigit then c.toNat - 48
  else if c.toNat ≥ 97 then c.toNat - 87
  else c.toNat - 55

/-- Parse the body of a JSON string after the opening quote, consuming
the closing quote.  (`\uXXXX` escapes denoting unpaired UTF-16
surrogates have no counterpart among Lean scalar values and decode to
`Char.ofNat`'s default; the printer never emits them.) -/
def parseStrBody : Str → Option (Str × Str)
  | [] => none
  | c :: rest =>
    if c = '"' then some ([], rest)
    else if c = '\\' then
      match rest with
      | [] => none
      | e :: rest1 =>
        if e = 'u' then
          match rest1 with
          | h1 :: h2 :: h3 :: h4 :: rest2 =>
            if isHexChar h1 && isHexChar h2 && isHexChar h3 && isHexChar h4 then
              (parseStrBody rest2).map
                (fun p =>
                  (Char.ofNat (hexVal h1 * 4096 + hexVal h2 * 256 + hexVal h3 * 16 + hexVal h4)
                    :: p.1, p.2))
            else none
          | _ => none
        else
          (escCharOf e).bind fun d => (parseStrBody rest1).map fun p => (d :: p.1, p.2)
    else (parseStrBody rest).map fun p => (c :: p.1, p.2)

/-- Expect an exact literal suffix of characters. -/
def parseLit : Str → Str → Option Str
  | [], cs => some cs
  | _ :: _, [] => none
  | l :: ls, c :: cs => if c = l then parseLit ls cs else none

/-- One fuel level of the recursive-descent JSON parser: a value
parser, an array-element-list parser (consuming the closing bracket)
and an object-member-list parser (consuming the closing brace). -/
structure Parsers where
  val : Str → Option (Json × Str)
  elems : Str → Option (List Json × Str)
  fields : Str → Option (List (Str × Json) × Str)

/-- The parsers at fuel zero: everything fails. -/
def noParsers : Parsers := ⟨fun _ => none, fun _ => none, fun _ => none⟩

/-- One step of the recursive-descent parser, taking the parsers of the
previous fuel level for the recursive positions. -/
def stepParsers (p : Parsers) : Parsers where
  val cs :=
    match cs with
    | [] => none
    | c :: rest =>
      if c = 'n' then (parseLit nullTail rest).map fun r => (Json.null, r)
      else if c = 't' then (parseLit trueTail rest).map fun r => (Json.bool true, r)
      else if c = 'f' then (parseLit falseTail rest).map fun r => (Json.bool false, r)
      else if c = '"' then (parseStrBody rest).map fun q => (Json.str q.1, q.2)
      else if c = '[' then
        match rest with
        | [] => none
        | d :: r =>
          if d = ']' then some (Json.arr [], r)
          else (p.elems (d :: r)).map fun q => (Json.arr q.1, q.2)
      else if c = lbrace then
        match rest with
        | [] => none
        | d :: r =>
          if d = rbrace then some (Json.obj [], r)
          else (p.fields (d :: r)).map fun q => (Json.obj q.1, q.2)
      else if c = '-' then (parseNatNum rest).map fun q => (Json.num (-(q.1 : Int)), q.2)
      else if c.isDigit then (parseNatNum (c :: rest)).map fun q => (Json.num (q.1 : Int), q.2)
      else none
  elems cs :=
    (p.val cs).bind fun q =>
      match q.2 with
      | [] => none
      | d :: r =>
        if d = ',' then (p.elems r).map fun t => (q.1 :: t.1, t.2)
        else if d = ']' then some ([q.1], r)
        else none
  fields cs :=
    match cs with
    | [] => none
    | c :: r0 =>
      if c = '"' then
        (parseStrBody r0).bind fun pk =>
          match pk.2 with
          | [] => none
          | d :: r1 =>
            if d = ':' then
              (p.val r1).bind fun pv =>
                match pv.2 with
                | [] => none
                | e :: r2 =>
                  if e = ',' then (p.fields r2).map fun t => ((pk.1, pv.1) :: t.1, t.2)
                  else if e = rbrace then some ([(pk.1, pv.1)], r2)
                  else none
            else none
      else none

/-- The parser bundle at a given fuel level. -/
def parsersAt : Nat → Parsers
  | 0 => noParsers
  | f + 1 => stepParsers (parsersAt f)

/-- Fuel-bounded recursive-descent JSON value parser. -/
def parseVal (f : Nat) (cs : Str) : Option (Json × Str) := (parsersAt f).val cs

/-- Parse the non-empty element list of a JSON array, consuming the
closing bracket. -/
def parseElems (f : Nat) (cs : Str) : Option (List Json × Str) := (parsersAt f).elems cs

/-- Parse the non-empty member list of a JSON object, consuming the
closing brace. -/
def parseFields (f : Nat) (cs : Str) : Option (List (Str × Json) × Str) :=
  (parsersAt f).fields cs

/-- The model of `JSON.parse`: parse one value and require the whole
input to be consumed. -/
def jsonParse (s : Str) : Option Json :=
  match parseVal (s.length + 1) s with
  | some (v, []) => some v
  | _ => none

/-- The head of the string is not a decimal digit (vacuous for the
empty string); a greedy numeral parse stops exactly here. -/
def headNotDigit : Str → Prop
  | [] => True
  | c :: _ => c.isDigit = false

/-! ## Parser/printer round trip -/

mutual

/-- Fuel sufficient for `parseVal` to parse the printed form of a value. -/
def jsize : Json → Nat
  | .null => 1
  | .bool _ => 1
  | .num _ => 1
  | .str _ => 1
  | .arr es => esSize es + 1
  | .obj fs => fsSize fs + 1

/-- Fuel sufficient for `parseElems` on a printed element list. -/
def esSize : List Json → Nat
  | [] => 0
  | e :: es => max (jsize e) (esSize es) + 1

/-- Fuel sufficient for `parseFields` on a printed member list. -/
def fsSize : List (Str × Json) → Nat
  | [] => 0
  | (_, v) :: fs => max (jsize v) (fsSize fs) + 1

end

/-- What may legally follow a printed JSON value: nothing, or a
separator/closer.  None of these characters can extend a numeral, so a
greedy numeral parse is unambiguous. -/
def headDelim : Str → Prop
  | [] => True
  | c :: _ => c = ',' ∨ c = ']' ∨ c = rbrace

/-! ## Timestamps

JavaScript `Date` values are modelled by their calendar fields at
millisecond precision.  `toISOString` models
`Date.prototype.toISOString` (`YYYY-MM-DDTHH:MM:SS.mmmZ`); `parseISO`
models `new Date(string)` restricted to that full ISO form (the
JavaScript constructor also accepts shorter forms and numeric epochs,
which the codec never produces; unparseable inputs give an invalid
date, modelled by `none`). -/

/-- Calendar timestamp at millisecond precision. -/
structure CalDate where
  year : Nat
  month : Nat
  day : Nat
  hour : Nat
  minute : Nat
  second : Nat
  ms : Nat
deriving DecidableEq, Repr

/-- Field ranges of a representable timestamp (the range
`Date.prototype.toISOString` emits without expanded years). -/
def CalDate.wf (d : CalDate) : Prop :=
  d.year ≤ 9999 ∧ 1 ≤ d.month ∧ d.month ≤ 12 ∧ 1 ≤ d.day ∧ d.day ≤ 31 ∧
    d.hour ≤ 23 ∧ d.minute ≤ 59 ∧ d.second ≤ 59 ∧ d.ms ≤ 999

instance (d : CalDate) : Decidable d.wf := by unfold CalDate.wf; infer_instance

/-- Chronological order on calendar timestamps (lexicographic on the
fields, which agrees with epoch-milliseconds order). -/
def CalDate.le (a b : CalDate) : Prop :=
  a.year < b.year ∨ (a.year = b.year ∧ (a.month < b.month ∨ (a.month = b.month ∧
    (a.day < b.day ∨ (a.day = b.day ∧ (a.hour < b.hour ∨ (a.hour = b.hour ∧
      (a.minute < b.minute ∨ (a.minute = b.minute ∧ (a.second < b.second ∨
        (a.second = b.second ∧ a.ms ≤ b.ms)))))))))))

instance (a b : CalDate) : Decidable (CalDate.le a b) := by unfold CalDate.le; infer_instance

/-- Fixed-width zero-padded decimal numeral. -/
def padNat (w n : Nat) : Str :=
  List.replicate (w - (printNat n).length) '0' ++ printNat n

/-- The model of `Date.prototype.toISOString`. -/
def toISOString (d : CalDate) : Str :=
  padNat 4 d.year ++ ('-' :: (padNat 2 d.month ++ ('-' :: (padNat 2 d.day ++
    ('T' :: (padNat 2 d.hour ++ (':' :: (padNat 2 d.minute ++ (':' :: (padNat 2 d.second ++
    ('.' :: (padNat 3 d.ms ++ ['Z']))))))))))))

/-- Read exactly `k` decimal digits, most significant first. -/
def readFixedNat : Nat → Str → Nat → Option (Nat × Str)
  | 0, cs, acc => some (acc, cs)
  | _ + 1, [], _ => none
  | k + 1, c :: cs, acc =>
    if c.isDigit then readFixedNat k cs (acc * 10 + digitVal c) else none

/-- Expect one specific character. -/
def expectChar (e : Char) : Str → Option Str
  | [] => none
  | c :: cs => if c = e then some cs else none

/-- The model of `new Date(string)` on full ISO-8601 date-time text:
either a valid calendar timestamp, or `none` (an invalid date, on which
`getTime()` is NaN). -/
def parseISO (s : Str) : Option CalDate := do
  let (y, s1) ← readFixedNat 4 s 0
  let s2 ← expectChar '-' s1
  let (mo, s3) ← readFixedNat 2 s2 0
  let s4 ← expectChar '-' s3
  let (dy, s5) ← readFixedNat 2 s4 0
  let s6 ← expectChar 'T' s5
  let (h, s7) ← readFixedNat 2 s6 0
  let s8 ← expectChar ':' s7
  let (mi, s9) ← readFixedNat 2 s8 0
  let s10 ← expectChar ':' s9
  let (se, s11) ← readFixedNat 2 s10 0
  let s12 ← expectChar '.' s11
  let (ms, s13) ← readFixedNat 3 s12 0
  let s14 ← expectChar 'Z' s13
  match s14 with
  | [] =>
    let d : CalDate := ⟨y, mo, dy, h, mi, se, ms⟩
    if d.wf then some d else none
  | _ => none

/-! ## Domain model (`src/types/index.ts`) -/

/-- `RoleType`. -/
inductive RoleType where
  | software : RoleType
  | devops : RoleType
  | security : RoleType
deriving DecidableEq, Repr

/-- `QuestionType`. -/
inductive QuestionType where
  | behavioral : QuestionType
  | technical : QuestionType
  | systemDesign : QuestionType
deriving DecidableEq, Repr

/-- `ExperienceLevel`. -/
inductive ExperienceLevel where
  | junior : ExperienceLevel
  | mid : ExperienceLevel
  | senior : ExperienceLevel
  | staff : ExperienceLevel
deriving DecidableEq, Repr

/-- `ParsedJobDescription`. -/
structure ParsedJobDescription where
  roleType : RoleType
  skills : List Str
  experienceLevel : ExperienceLevel
  technologies : List Str
  responsibilities : List Str
  rawDescription : Str
deriving DecidableEq, Repr

/-- `InterviewQuestion`. -/
structure InterviewQuestion where
  id : Str
  type : QuestionType
  question : Str
  difficulty : ExperienceLevel
  relatedSkills : List Str
deriving DecidableEq, Repr

/-- `AnswerFeedback` (scores are integral in this model). -/
structure AnswerFeedback where
  questionId : Str
  score : Int
  strengths : List Str
  improvements : List Str
  timestamp : CalDate
deriving DecidableEq, Repr

/-- The `performanceSummary` record of `SessionFeedback`. -/
structure PerformanceSummary where
  behavioral : Int
  technical : Int
  systemDesign : Int
deriving DecidableEq, Repr

/-- `SessionFeedback`. -/
structure SessionFeedback where
  overallScore : Int
  performanceSummary : PerformanceSummary
  strongestAreas : List Str
  improvementAreas : List Str
  recommendations : List Str
deriving DecidableEq, Repr

/-- `InterviewSession`.  The `answers` and `feedback` `Map`s are
modelled as association lists in insertion order. -/
structure InterviewSession where
  id : Str
  parsedJD : ParsedJobDescription
  questions : List InterviewQuestion
  answers : List (Str × Str)
  feedback : List (Str × AnswerFeedback)
  sessionFeedback : Option SessionFeedback
  currentQuestionIndex : Int
  isComplete : Bool
  createdAt : CalDate
  completedAt : Option CalDate
deriving DecidableEq, Repr

/-! ## JavaScript `Map` operations on association lists -/

/-- `Map.prototype.set`: update in place if the key is present (keeping
its original insertion position), else append. -/
def mapSet {α β : Type} [DecidableEq α] : List (α × β) → α → β → List (α × β)
  | [], k, v => [(k, v)]
  | (k0, v0) :: t, k, v => if k0 = k then (k, v) :: t else (k0, v0) :: mapSet t k v

/-- `Map.prototype.get`: the value at the key, or `undefined`. -/
def mapGet {α β : Type} [DecidableEq α] : List (α × β) → α → Option β
  | [], _ => none
  | (k0, v0) :: t, k => if k0 = k then some v0 else mapGet t k

/-- `new Map(pairs)`: fold `set` over the pair list (a later duplicate
key overwrites the value but keeps the first occurrence's position). -/
def mapFromPairs {α β : Type} [DecidableEq α] (ps : List (α × β)) : List (α × β) :=
  ps.foldl (fun m p => mapSet m p.1 p.2) []

/-! ## Session manager (`src/lib/session-manager.ts`, class `SessionManager`)

`uuidv4()` and `new Date()` are runtime effects; the embedded functions
take the fresh identifier and the observed current time as parameters.
Methods that `throw` are embedded as `Except Str`. -/

/-- `SessionManager.createSession`. -/
def createSession (id : Str) (parsedJD : ParsedJobDescription)
    (questions : List InterviewQuestion) (now : CalDate) : InterviewSession :=
  { id := id
    parsedJD := parsedJD
    questions := questions
    answers := []
    feedback := []
    sessionFeedback := none
    currentQuestionIndex := 0
    isComplete := false
    createdAt := now
    completedAt := none }

/-- The error text of `storeAnswer` for an unknown question id. -/
def notFoundMsg (questionId : Str) : Str :=
  "Question with ID ".toList ++ questionId ++ " not found in session".toList

/-- `SessionManager.storeAnswer`. -/
def storeAnswer (s : InterviewSession) (questionId : Str) (answer : Str) :
    Except Str InterviewSession :=
  if s.questions.any (fun q => q.id == questionId) then
    .ok { s with answers := mapSet s.answers questionId answer }
  else
    .error (notFoundMsg questionId)

/-- `SessionManager.getAnswer`. -/
def getAnswer (s : InterviewSession) (questionId : Str) : Option Str :=
  mapGet s.answers questionId

/-- `SessionManager.storeFeedback` (no validation of the id). -/
def storeFeedback (s : InterviewSession) (fb : AnswerFeedback) : InterviewSession :=
  { s with feedback := mapSet s.feedback fb.questionId fb }

/-- `SessionManager.getFeedback`. -/
def getFeedback (s : InterviewSession) (questionId : Str) : Option AnswerFeedback :=
  mapGet s.feedback questionId

/-- The error text of `setCurrentQuestionIndex` for an out-of-range
index. -/
def invalidIndexMsg (index : Int) (len : Nat) : Str :=
  "Invalid question index: ".toList ++ printInt index ++
    ". Must be between 0 and ".toList ++ printInt ((len : Int) - 1)

/-- `SessionManager.setCurrentQuestionIndex`. -/
def setCurrentQuestionIndex (s : InterviewSession) (index : Int) :
    Except Str InterviewSession :=
  if index < 0 ∨ (s.questions.length : Int) ≤ index then
    .error (invalidIndexMsg index s.questions.length)
  else
    .ok { s with currentQuestionIndex := index }

/-- `SessionManager.completeSession`. -/
def completeSession (s : InterviewSession) (now : CalDate) : InterviewSession :=
  { s with isComplete := true, completedAt := some now }

/-- `SessionManager.areAllQuestionsAnswered` (`Map.size` against the
question count). -/
def areAllQuestionsAnswered (s : InterviewSession) : Bool :=
  s.answers.length == s.questions.length

/-- `SessionManager.storeSessionFeedback`. -/
def storeSessionFeedback (s : InterviewSession) (fb : SessionFeedback) : InterviewSession :=
  { s with sessionFeedback := some fb }

/-- `SessionManager.getCurrentQuestion` reads
`questions[currentQuestionIndex]` with no bounds check; JavaScript
yields `undefined` out of bounds, modelled as `none`. -/
def getCurrentQuestion (s : InterviewSession) : Option InterviewQuestion :=
  if s.currentQuestionIndex < 0 then none
  else s.questions.get? s.currentQuestionIndex.toNat

/-- `SessionManager.nextQuestion`. -/
def nextQuestion (s : InterviewSession) : Except Str InterviewSession :=
  if (s.questions.length : Int) ≤ s.currentQuestionIndex + 1 then
    .error "Already at the last question".toList
  else setCurrentQuestionIndex s (s.currentQuestionIndex + 1)

/-- `SessionManager.previousQuestion`. -/
def previousQuestion (s : InterviewSession) : Except Str InterviewSession :=
  if s.currentQuestionIndex - 1 < 0 then
    .error "Already at the first question".toList
  else setCurrentQuestionIndex s (s.currentQuestionIndex - 1)

/-! ## Serialization codec (`serializeSession` / `deserializeSession`) -/

/-- A list of strings as a JSON array. -/
def jstrList (l : List Str) : Json := .arr (l.map Json.str)

/-- Wire text of a `RoleType`. -/
def roleTypeStr : RoleType → Str
  | .software => "software".toList
  | .devops => "devops".toList
  | .security => "security".toList

/-- Wire text of a `QuestionType`. -/
def questionTypeStr : QuestionType → Str
  | .behavioral => "behavioral".toList
  | .technical => "technical".toList
  | .systemDesign => "system-design".toList

/-- Wire text of an `ExperienceLevel`. -/
def experienceLevelStr : ExperienceLevel → Str
  | .junior => "junior".toList
  | .mid => "mid".toList
  | .senior => "senior".toList
  | .staff => "staff".toList

/-- The `parsedJD` field as `JSON.stringify` renders it. -/
def pjdToJson (p : ParsedJobDescription) : Json :=
  .obj [("roleType".toList, .str (roleTypeStr p.roleType)),
        ("skills".toList, jstrList p.skills),
        ("experienceLevel".toList, .str (experienceLevelStr p.experienceLevel)),
        ("technologies".toList, jstrList p.technologies),
        ("responsibilities".toList, jstrList p.responsibilities),
        ("rawDescription".toList, .str p.rawDescription)]

/-- One question as `JSON.stringify` renders it. -/
def questionToJson (q : InterviewQuestion) : Json :=
  .obj [("id".toList, .str q.id),
        ("type".toList, .str (questionTypeStr q.type)),
        ("question".toList, .str q.question),
        ("difficulty".toList, .str (experienceLevelStr q.difficulty)),
        ("relatedSkills".toList, jstrList q.relatedSkills)]

/-- One feedback entry in its serializable form (`timestamp` as an ISO
string), as `serializeSession` builds it. -/
def feedbackToJson (fb : AnswerFeedback) : Json :=
  .obj [("questionId".toList, .str fb.questionId),
        ("score".toList, .num fb.score),
        ("strengths".toList, jstrList fb.strengths),
        ("improvements".toList, jstrList fb.improvements),
        ("timestamp".toList, .str (toISOString fb.timestamp))]

/-- The optional session feedback as `JSON.stringify` renders it. -/
def sessionFeedbackToJson (sf : SessionFeedback) : Json :=
  .obj [("overallScore".toList, .num sf.overallScore),
        ("performanceSummary".toList,
          .obj [("behavioral".toList, .num sf.performanceSummary.behavioral),
                ("technical".toList, .num sf.performanceSummary.technical),
                ("systemDesign".toList, .num sf.performanceSummary.systemDesign)]),
        ("strongestAreas".toList, jstrList sf.strongestAreas),
        ("improvementAreas".toList, jstrList sf.improvementAreas),
        ("recommendations".toList, jstrList sf.recommendations)]

/-- The `SerializableSession` object in the source's field order. -/
def sessionToJson (s : InterviewSession) : Json :=
  .obj [("id".toList, .str s.id),
        ("parsedJD".toList, pjdToJson s.parsedJD),
        ("questions".toList, .arr (s.questions.map questionToJson)),
        ("answers".toList, .arr (s.answers.map fun p => .arr [.str p.1, .str p.2])),
        ("feedback".toList, .arr (s.feedback.map fun p => .arr [.str p.1, feedbackToJson p.2])),
        ("sessionFeedback".toList,
          match s.sessionFeedback with
          | none => .null
          | some sf => sessionFeedbackToJson sf),
        ("currentQuestionIndex".toList, .num s.currentQuestionIndex),
        ("isComplete".toList, .bool s.isComplete),
        ("createdAt".toList, .str (toISOString s.createdAt)),
        ("completedAt".toList,
          match s.completedAt with
          | none => .null
          | some c => .str (toISOString c))]

/-- `serializeSession`: the `SerializableSession` object printed by
`JSON.stringify`. -/
def serializeSession (s : InterviewSession) : Str := printJson (sessionToJson s)

/-- Property lookup on a parsed JSON value (`data.name`): on objects
the last occurrence of a duplicated key wins (as in `JSON.parse`);
absent keys and non-objects give `undefined`, modelled as `none`. -/
def getField (j : Json) (name : Str) : Option Json :=
  match j with
  | .obj fs => fs.foldl (fun acc kv => if kv.1 = name then some kv.2 else acc) none
  | _ => none

/-- JavaScript truthiness of a possibly-absent parsed JSON value. -/
def jsTruthy : Option Json → Bool
  | none => false
  | some .null => false
  | some (.bool b) => b
  | some (.num n) => decide (¬n = 0)
  | some (.str s) => decide (¬s = [])
  | some (.arr _) => true
  | some (.obj _) => true

/-- `Array.isArray` on a possibly-absent parsed JSON value. -/
def isArrJ : Option Json → Bool
  | some (.arr _) => true
  | _ => false

def asStr : Json → Option Str
  | .str s => some s
  | _ => none

def asNum : Json → Option Int
  | .num n => some n
  | _ => none

def asStrList : Json → Option (List Str)
  | .arr es => es.mapM asStr
  | _ => none

def decodeRole (j : Json) : Option RoleType := do
  let s ← asStr j
  if s = "software".toList then some .software
  else if s = "devops".toList then some .devops
  else if s = "security".toList then some .security
  else none

def decodeQuestionType (j : Json) : Option QuestionType := do
  let s ← asStr j
  if s = "behavioral".toList then some .behavioral
  else if s = "technical".toList then some .technical
  else if s = "system-design".toList then some .systemDesign
  else none

def decodeExperience (j : Json) : Option ExperienceLevel := do
  let s ← asStr j
  if s = "junior".toList then some .junior
  else if s = "mid".toList then some .mid
  else if s = "senior".toList then some .senior
  else if s = "staff".toList then some .staff
  else none

def decodePJD (j : Json) : Option ParsedJobDescription := do
  let roleType ← (getField j "roleType".toList).bind decodeRole
  let skills ← (getField j "skills".toList).bind asStrList
  let experienceLevel ← (getField j "experienceLevel".toList).bind decodeExperience
  let technologies ← (getField j "technologies".toList).bind asStrList
  let responsibilities ← (getField j "responsibilities".toList).bind asStrList
  let rawDescription ← (getField j "rawDescription".toList).bind asStr
  some ⟨roleType, skills, experienceLevel, technologies, responsibilities, rawDescription⟩

def decodeQuestion (j : Json) : Option InterviewQuestion := do
  let id ← (getField j "id".toList).bind asStr
  let t ← (getField j "type".toList).bind decodeQuestionType
  let question ← (getField j "question".toList).bind asStr
  let difficulty ← (getField j "difficulty".toList).bind decodeExperience
  let relatedSkills ← (getField j "relatedSkills".toList).bind asStrList
  some ⟨id, t, question, difficulty, relatedSkills⟩

/-- Decode one serialized feedback value, reconstructing the timestamp
with the `Date` model.  The source stores an Invalid Date if the
timestamp text does not parse; the typed model reports failure
instead. -/
def decodeFeedback (j : Json) : Option AnswerFeedback := do
  let questionId ← (getField j "questionId".toList).bind asStr
  let score ← (getField j "score".toList).bind asNum
  let strengths ← (getField j "strengths".toList).bind asStrList
  let improvements ← (getField j "improvements".toList).bind asStrList
  let ts ← (getField j "timestamp".toList).bind asStr
  let timestamp ← parseISO ts
  some ⟨questionId, score, strengths, improvements, timestamp⟩

def decodeSessionFeedback (j : Json) : Option SessionFeedback := do
  let overallScore ← (getField j "overallScore".toList).bind asNum
  let ps ← getField j "performanceSummary".toList
  let behavioral ← (getField ps "behavioral".toList).bind asNum
  let technical ← (getField ps "technical".toList).bind asNum
  let systemDesign ← (getField ps "systemDesign".toList).bind asNum
  let strongestAreas ← (getField j "strongestAreas".toList).bind asStrList
  let improvementAreas ← (getField j "improvementAreas".toList).bind asStrList
  let recommendations ← (getField j "recommendations".toList).bind asStrList
  some ⟨overallScore, ⟨behavioral, technical, systemDesign⟩,
    strongestAreas, improvementAreas, recommendations⟩

/-- One entry of the serialized `answers` pair list. -/
def decodeAnswerPair (j : Json) : Option (Str × Str) :=
  match j with
  | .arr [a, b] => do
    let k ← asStr a
    let v ← asStr b
    some (k, v)
  | _ => none

/-- One entry of the serialized `feedback` pair list. -/
def decodeFeedbackPair (j : Json) : Option (Str × AnswerFeedback) :=
  match j with
  | .arr [a, b] => do
    let k ← asStr a
    let fb ← decodeFeedback b
    some (k, fb)
  | _ => none

/-- Every `deserializeSession` error is wrapped in this prefix by the
source's catch-all. -/
def deserMsg (cause : Str) : Str := "Failed to deserialize session: ".toList ++ cause

/-- Turn a possibly-failing decode into the codec's error monad. -/
def orFail {α : Type} (o : Option α) (msg : Str) : Except Str α :=
  match o with
  | some a => .ok a
  | none => .error msg

/-- `deserializeSession`.  Faithful to the source's observable checks:
a JSON syntax error, the required-fields truthiness check, and the
`createdAt` / non-null `completedAt` validity checks fail with the
source's messages (wrapped by its catch-all prefix), in the source's
evaluation order.  Where the source would silently store structurally
ill-typed data in a typed slot (a non-record `parsedJD`, a malformed
map entry, a non-numeric cursor, an unparseable nested feedback
timestamp stored as an Invalid Date, a numeric or boolean timestamp
converted from an epoch value), the typed model reports a decoding
failure instead; no property proved below depends on such inputs. -/
def deserializeSession (wire : Str) : Except Str InterviewSession :=
  match jsonParse wire with
  | none => .error (deserMsg ("Invalid JSON format - unexpected token".toList))
  | some data =>
    if !(jsTruthy (getField data "id".toList))
        || !(jsTruthy (getField data "parsedJD".toList))
        || !(jsTruthy (getField data "questions".toList))
        || !(isArrJ (getField data "questions".toList)) then
      .error (deserMsg "Invalid session data: missing required fields".toList)
    else do
      let idv ← orFail ((getField data "id".toList).bind asStr)
        (deserMsg "malformed field: id".toList)
      let pjd ← orFail ((getField data "parsedJD".toList).bind decodePJD)
        (deserMsg "malformed field: parsedJD".toList)
      let questions ← orFail
        ((match getField data "questions".toList with
          | some (.arr es) => some es
          | _ => none).bind fun es => es.mapM decodeQuestion)
        (deserMsg "malformed field: questions".toList)
      let answerPairs ←
        if jsTruthy (getField data "answers".toList) = false then pure []
        else
          orFail
            ((match getField data "answers".toList with
              | some (.arr es) => some es
              | _ => none).bind fun es => es.mapM decodeAnswerPair)
            (deserMsg "malformed field: answers".toList)
      let feedbackPairs ←
        if jsTruthy (getField data "feedback".toList) = false then pure []
        else
          orFail
            ((match getField data "feedback".toList with
              | some (.arr es) => some es
              | _ => none).bind fun es => es.mapM decodeFeedbackPair)
            (deserMsg "malformed field: feedback".toList)
      let createdAt ←
        match (getField data "createdAt".toList).bind asStr with
        | none =>
          .error (deserMsg "Invalid session data: createdAt is not a valid date".toList)
        | some ts =>
          orFail (parseISO ts)
            (deserMsg "Invalid session data: createdAt is not a valid date".toList)
      let completedAt ←
        if jsTruthy (getField data "completedAt".toList) = false then pure none
        else
          match (getField data "completedAt".toList).bind asStr with
          | none =>
            .error (deserMsg "Invalid session data: completedAt is not a valid date".toList)
          | some ts =>
            orFail ((parseISO ts).map some)
              (deserMsg "Invalid session data: completedAt is not a valid date".toList)
      let sessionFeedback ←
        match getField data "sessionFeedback".toList with
        | none => pure none
        | some .null => pure none
        | some j =>
          orFail ((decodeSessionFeedback j).map some)
            (deserMsg "malformed field: sessionFeedback".toList)
      let currentQuestionIndex ←
        match getField data "currentQuestionIndex".toList with
        | none => pure (0 : Int)
        | some .null => pure (0 : Int)
        | some (.num n) => pure n
        | some _ =>
          .error (deserMsg "malformed field: currentQuestionIndex".toList)
      let isComplete ←
        match getField data "isComplete".toList with
        | none => pure false
        | some .null => pure false
        | some (.bool b) => pure b
        | some _ => .error (deserMsg "malformed field: isComplete".toList)
      pure
        { id := idv
          parsedJD := pjd
          questions := questions
          answers := mapFromPairs answerPairs
          feedback := mapFromPairs feedbackPairs
          sessionFeedback := sessionFeedback
          currentQuestionIndex := currentQuestionIndex
          isComplete := isComplete
          createdAt := createdAt
          completedAt := completedAt }

/-! ## The Data Model invariants (spec §3) -/

/-- The Data Model invariants of an `InterviewSession`, together with
the representation well-formedness the aggregate always has (a
non-empty identifier, association keys unique, valid calendar
timestamps): the cursor is in range, association keys are drawn from
the session's question ids, each feedback entry's embedded id equals
its key, and completion is consistent. -/
def sessionWf (s : InterviewSession) : Prop :=
  s.id ≠ [] ∧
  0 ≤ s.currentQuestionIndex ∧
  s.currentQuestionIndex < (s.questions.length : Int) ∧
  (∀ k ∈ s.answers.map Prod.fst, k ∈ s.questions.map InterviewQuestion.id) ∧
  (∀ p ∈ s.feedback, p.2.questionId = p.1 ∧ p.1 ∈ s.questions.map InterviewQuestion.id) ∧
  (s.answers.map Prod.fst).Nodup ∧
  (s.feedback.map Prod.fst).Nodup ∧
  (s.isComplete = true ↔ s.completedAt ≠ none) ∧
  (∀ c, s.completedAt = some c → CalDate.le s.createdAt c) ∧
  s.createdAt.wf ∧
  (∀ c, s.completedAt = some c → c.wf) ∧
  (∀ p ∈ s.feedback, p.2.timestamp.wf)

instance (s : InterviewSession) : Decidable (sessionWf s) := by
  unfold sessionWf; infer_instance

/-! ## Example fixtures used by the concrete instantiations -/

deriving instance DecidableEq for Except

/-- A concrete parsed job description. -/
def exJD : ParsedJobDescription :=
  { roleType := .software
    skills := ["typescript".toList, "react".toList]
    experienceLevel := .mid
    technologies := ["node".toList]
    responsibilities := ["build features".toList]
    rawDescription := "a raw job description text of at least fifty characters!".toList }

/-- Five concrete interview questions. -/
def exQs : List InterviewQuestion :=
  [{ id := "q-1".toList, type := .behavioral, question := "Tell me about a conflict".toList,
     difficulty := .mid, relatedSkills := ["teamwork".toList] },
   { id := "q-2".toList, type := .technical, question := "Explain event loops".toList,
     difficulty := .mid, relatedSkills := [] },
   { id := "q-3".toList, type := .technical, question := "What is a closure here".toList,
     difficulty := .senior, relatedSkills := ["typescript".toList] },
   { id := "q-4".toList, type := .systemDesign, question := "Design a URL shortener".toList,
     difficulty := .senior, relatedSkills := [] },
   { id := "q-5".toList, type := .behavioral, question := "Describe a failure story".toList,
     difficulty := .junior, relatedSkills := [] }]

/-- A concrete creation timestamp. -/
def exDate : CalDate := ⟨2024, 3, 10, 9, 0, 0, 0⟩

/-- A later concrete timestamp. -/
def exDate2 : CalDate := ⟨2024, 3, 10, 9, 30, 0, 500⟩

/-- A freshly created concrete session over the five questions. -/
def exSession : InterviewSession := createSession "sess-0001".toList exJD exQs exDate

/-- A concrete per-answer feedback value. -/
def exFeedback : AnswerFeedback :=
  { questionId := "q-1".toList, score := 7
    strengths := ["clear".toList, "specific \"facts\"".toList]
    improvements := ["more depth".toList, "structure".toList]
    timestamp := exDate2 }

/-- A concrete session-level feedback value. -/
def exSF : SessionFeedback :=
  { overallScore := 8, performanceSummary := ⟨7, 8, 6⟩
    strongestAreas := ["communication".toList]
    improvementAreas := ["system design".toList]
    recommendations := ["practice whiteboarding".toList] }

/-- A concrete completed session exercising every optional field. -/
def exSessionFull : InterviewSession :=
  { id := "sess-0001".toList
    parsedJD := exJD
    questions := exQs
    answers := [("q-1".toList, "my answer, line one\nline two".toList),
                ("q-2".toList, "a second answer".toList)]
    feedback := [("q-1".toList, exFeedback)]
    sessionFeedback := some exSF
    currentQuestionIndex := 2
    isComplete := true
    createdAt := exDate
    completedAt := some exDate2 }

/-! ## Reachability by manager operations -/

/-- Sessions reachable from `createSession` by the manager's
operations.  `completeGate` constrains the clock value `completeSession`
observes (instantiated trivially, or with clock monotonicity); `fbGate`
constrains the feedback values handed to `storeFeedback` (instantiated
trivially for the source's permissive behaviour, or with id validity
for the strengthened variant).  The creation step carries
`createSession`'s documented precondition that the question sequence
was already schema-validated to at least five questions. -/
inductive Reach (completeGate : InterviewSession → CalDate → Prop)
    (fbGate : InterviewSession → AnswerFeedback → Prop) : InterviewSession → Prop where
  | create (id : Str) (pjd : ParsedJobDescription) (qs : List InterviewQuestion)
      (now : CalDate) (hq : 5 ≤ qs.length) :
      Reach completeGate fbGate (createSession id pjd qs now)
  | answer {s s2 : InterviewSession} (qid a : Str) (hr : Reach completeGate fbGate s)
      (h : storeAnswer s qid a = .ok s2) : Reach completeGate fbGate s2
  | feedback {s : InterviewSession} (fb : AnswerFeedback)
      (hr : Reach completeGate fbGate s) (hg : fbGate s fb) :
      Reach completeGate fbGate (storeFeedback s fb)
  | setIndex {s s2 : InterviewSession} (i : Int) (hr : Reach completeGate fbGate s)
      (h : setCurrentQuestionIndex s i = .ok s2) : Reach completeGate fbGate s2
  | complete {s : InterviewSession} (now : CalDate) (hr : Reach completeGate fbGate s)
      (hg : completeGate s now) : Reach completeGate fbGate (completeSession s now)
  | sessionFb {s : InterviewSession} (fb : SessionFeedback)
      (hr : Reach completeGate fbGate s) :
      Reach completeGate fbGate (storeSessionFeedback s fb)
  | next {s s2 : InterviewSession} (hr : Reach completeGate fbGate s)
      (h : nextQuestion s = .ok s2) : Reach completeGate fbGate s2
  | prev {s s2 : InterviewSession} (hr : Reach completeGate fbGate s)
      (h : previousQuestion s = .ok s2) : Reach completeGate fbGate s2

/-! ## Substring observation for error messages -/

/-- Whether the first string is a prefix of the second. -/
def isPrefixL : Str → Str → Bool
  | [], _ => true
  | _ :: _, [] => false
  | a :: as, b :: bs => a == b && isPrefixL as bs

/-- Whether `needle` occurs contiguously inside the second string. -/
def hasSubstr (needle : Str) : Str → Bool
  | [] => isPrefixL needle []
  | c :: t => isPrefixL needle (c :: t) || hasSubstr needle t

/-- A minimal parsed job description for the malformed-wire fixtures. -/
def tinyJD : ParsedJobDescription :=
  { roleType := .software, skills := [], experienceLevel := .mid,
    technologies := [], responsibilities := [], rawDescription := "jd".toList }

/-- A minimal question for the malformed-wire fixtures. -/
def tinyQ : InterviewQuestion :=
  { id := "q-1".toList, type := .behavioral, question := "q".toList,
    difficulty := .mid, relatedSkills := [] }

/-- A well-formed wire (fields present and truthy) whose `createdAt`
is not a parseable timestamp. -/
def badCreatedAtWire : Str :=
  printJson (.obj [("id".toList, .str "x".toList),
    ("parsedJD".toList, pjdToJson tinyJD),
    ("questions".toList, .arr [questionToJson tinyQ]),
    ("createdAt".toList, .str "not a date".toList)])

/-- A well-formed wire whose `completedAt` is present and truthy but
not a parseable timestamp. -/
def badCompletedAtWire : Str :=
  printJson (.obj [("id".toList, .str "x".toList),
    ("parsedJD".toList, pjdToJson tinyJD),
    ("questions".toList, .arr [questionToJson tinyQ]),
    ("createdAt".toList, .str "2024-03-10T09:00:00.000Z".toList),
    ("completedAt".toList, .str "later that day".toList)])

/-! ## Persistence store (`localStorage`) and the history ledger -/

/-- The durable key/value store backing `localStorage`. -/
abbrev Storage := List (Str × Str)

/-- `localStorage.getItem` (`null` modelled as `none`). -/
def getItem (st : Storage) (k : Str) : Option Str := mapGet st k

/-- `localStorage.setItem`. -/
def setItem (st : Storage) (k v : Str) : Storage := mapSet st k v

/-- `STORAGE_KEYS.SESSION_HISTORY`. -/
def sessionHistoryKey : Str := "mockmatch:session-history".toList

/-- `SessionHistoryEntry`. -/
structure SessionHistoryEntry where
  id : Str
  roleType : Str
  experienceLevel : Str
  createdAt : Str
  completedAt : Option Str
  overallScore : Option Int
deriving DecidableEq, Repr

/-- One history entry as `JSON.stringify` renders it. -/
def historyEntryToJson (e : SessionHistoryEntry) : Json :=
  .obj [("id".toList, .str e.id),
        ("roleType".toList, .str e.roleType),
        ("experienceLevel".toList, .str e.experienceLevel),
        ("createdAt".toList, .str e.createdAt),
        ("completedAt".toList,
          match e.completedAt with
          | none => .null
          | some t => .str t),
        ("overallScore".toList,
          match e.overallScore with
          | none => .null
          | some n => .num n)]

/-- Decode one parsed history entry back to its typed form. -/
def decodeHistoryEntry (j : Json) : Option SessionHistoryEntry := do
  let id ← (getField j "id".toList).bind asStr
  let roleType ← (getField j "roleType".toList).bind asStr
  let experienceLevel ← (getField j "experienceLevel".toList).bind asStr
  let createdAt ← (getField j "createdAt".toList).bind asStr
  let completedAt ←
    match getField j "completedAt".toList with
    | some .null => some none
    | some (.str t) => some (some t)
    | _ => none
  let overallScore ←
    match getField j "overallScore".toList with
    | some .null => some none
    | some (.num n) => some (some n)
    | _ => none
  some ⟨id, roleType, experienceLevel, createdAt, completedAt, overallScore⟩

/-- The stored history list in wire form. -/
def historyToJson (h : List SessionHistoryEntry) : Json := .arr (h.map historyEntryToJson)

/-- Decode a parsed history value. -/
def decodeHistory (j : Json) : Option (List SessionHistoryEntry) :=
  match j with
  | .arr es => es.mapM decodeHistoryEntry
  | _ => none

/-- The decoded content of the history key: `some []` when the key is
absent or its text fails to parse (`getSessionHistory` catches and
degrades to the empty list), the decoded entries when well-shaped, and
`none` when the stored JSON parses to something that is not an entry
list — in the source such a value flows untyped out of
`getSessionHistory`, making `saveSessionToHistory`'s `findIndex` throw
into its catch, so nothing is written. -/
def readHistory (st : Storage) : Option (List SessionHistoryEntry) :=
  match getItem st sessionHistoryKey with
  | none => some []
  | some txt =>
    match jsonParse txt with
    | none => some []
    | some j => decodeHistory j

/-- `getSessionHistory` (corruption degrades to the empty list). -/
def getSessionHistory (st : Storage) : List SessionHistoryEntry :=
  (readHistory st).getD []

/-- The lightweight summary record `saveSessionToHistory` computes. -/
def summaryOf (s : InterviewSession) : SessionHistoryEntry :=
  { id := s.id
    roleType := roleTypeStr s.parsedJD.roleType
    experienceLevel := experienceLevelStr s.parsedJD.experienceLevel
    createdAt := toISOString s.createdAt
    completedAt := s.completedAt.map toISOString
    overallScore := s.sessionFeedback.map SessionFeedback.overallScore }

/-- The upsert `saveSessionToHistory` performs on the entry list:
replace the entry `findIndex` locates in place, else append. -/
def upsertHistory (h : List SessionHistoryEntry) (e : SessionHistoryEntry) :
    List SessionHistoryEntry :=
  match h.findIdx? (fun x => x.id == e.id) with
  | some i => h.set i e
  | none => h ++ [e]

/-- `saveSessionToHistory`: read the stored history, upsert the
session's summary record by id, and write the list back. -/
def saveSessionToHistory (st : Storage) (s : InterviewSession) : Storage :=
  match readHistory st with
  | none => st
  | some h =>
    setItem st sessionHistoryKey (printJson (historyToJson (upsertHistory h (summaryOf s))))

/-- A well-formed wire text whose session violates the data-model
invariants: a single question, cursor 7, and an answer keyed by an id
that is no question's id. -/
def invalidWire : Str :=
  "\x7b\"id\":\"x\",\"parsedJD\":\x7b\"roleType\":\"software\",\"skills\":[],\"experienceLevel\":\"mid\",\"technologies\":[],\"responsibilities\":[],\"rawDescription\":\"jd\"\x7d,\"questions\":[\x7b\"id\":\"q-1\",\"type\":\"behavioral\",\"question\":\"q\",\"difficulty\":\"mid\",\"relatedSkills\":[]\x7d],\"answers\":[[\"zzz\",\"a\"]],\"currentQuestionIndex\":7,\"createdAt\":\"2024-03-10T09:00:00.000Z\"\x7d".toList

/-- The session `deserializeSession` produces from `invalidWire`. -/
def invalidSess : InterviewSession :=
  { id := "x".toList, parsedJD := tinyJD, questions := [tinyQ],
    answers := [("zzz".toList, "a".toList)], feedback := [], sessionFeedback := none,
    currentQuestionIndex := 7, isComplete := false, createdAt := ⟨2024, 3, 10, 9, 0, 0, 0⟩,
    completedAt := none }

/-! ## Numeral round trips -/

theorem digitVal_digitChar {d : Nat} (h : d < 10) : digitVal (digitChar d) = d := by
  interval_cases d <;> decide

theorem isDigit_digitChar {d : Nat} (h : d < 10) : (digitChar d).isDigit = true := by
  interval_cases d <;> decide

theorem readDigits_append (ds : Str) (rest : Str) (acc : Nat)
    (hd : ∀ c ∈ ds, c.isDigit = true) (hr : headNotDigit rest) :
    readDigits (ds ++ rest) acc = (ds.foldl (fun a c => a * 10 + digitVal c) acc, rest) := by
  induction ds generalizing acc with
  | nil =>
    cases rest with
    | nil => rfl
    | cons c cs => simp [readDigits, headNotDigit] at hr ⊢; simp [hr]
  | cons d ds ih =>
    have hdd : d.isDigit = true := hd d (by simp)
    simp only [List.cons_append, readDigits, hdd, if_true, List.foldl_cons]
    exact ih _ (fun c hc => hd c (by simp [hc]))

theorem foldl_digits_reverse (L : List Nat) (hL : ∀ d ∈ L, d < 10) (acc : Nat) :
    (L.reverse.map digitChar).foldl (fun a c => a * 10 + digitVal c) acc
      = acc * 10 ^ L.length + Nat.ofDigits 10 L := by
  induction L generalizing acc with
  | nil => simp [Nat.ofDigits]
  | cons d t ih =>
    have ht : ∀ e ∈ t, e < 10 := fun e he => hL e (by simp [he])
    simp only [List.reverse_cons, List.map_append, List.foldl_append, ih ht acc,
      List.map_cons, List.map_nil, List.foldl_cons, List.foldl_nil, Nat.ofDigits_cons,
      List.length_cons]
    rw [digitVal_digitChar (hL d (by simp))]
    ring

theorem printNat_val (n : Nat) :
    (printNat n).foldl (fun a c => a * 10 + digitVal c) 0 = n := by
  by_cases h : n = 0
  · subst h; decide
  · have := foldl_digits_reverse (Nat.digits 10 n)
      (fun d hd => Nat.digits_lt_base (by norm_num) hd) 0
    simp only [printNat, h, if_false, this, Nat.ofDigits_digits, Nat.zero_mul, Nat.zero_add]

theorem printNat_all_digits (n : Nat) : ∀ c ∈ printNat n, c.isDigit = true := by
  intro c hc
  by_cases h : n = 0
  · subst h; simp [printNat] at hc; subst hc; decide
  · simp [printNat, h] at hc
    obtain ⟨d, hd, rfl⟩ := hc
    exact isDigit_digitChar (Nat.digits_lt_base (by norm_num) hd)

theorem printNat_ne_nil (n : Nat) : printNat n ≠ [] := by
  by_cases h : n = 0
  · subst h; simp [printNat]
  · simp [printNat, h, Nat.digits_ne_nil_iff_ne_zero]

theorem parseNatNum_print (n : Nat) (rest : Str) (hr : headNotDigit rest) :
    parseNatNum (printNat n ++ rest) = some (n, rest) := by
  obtain ⟨c, cs, hcons⟩ : ∃ c cs, printNat n = c :: cs := by
    cases h : printNat n with
    | nil => exact absurd h (printNat_ne_nil n)
    | cons c cs => exact ⟨c, cs, rfl⟩
  have hc : c.isDigit = true := printNat_all_digits n c (by simp [hcons])
  rw [hcons, List.cons_append]
  simp only [parseNatNum, hc, if_true]
  rw [← List.cons_append, ← hcons,
    readDigits_append (printNat n) rest 0 (printNat_all_digits n) hr, printNat_val]

/-! ## String-escape round trip -/

theorem hexVal_hexDigitChar {d : Nat} (h : d < 16) : hexVal (hexDigitChar d) = d := by
  interval_cases d <;> decide

theorem isHexChar_hexDigitChar {d : Nat} (h : d < 16) : isHexChar (hexDigitChar d) = true := by
  interval_cases d <;> decide

theorem parseStrBody_quote (rest : Str) : parseStrBody ('"' :: rest) = some ([], rest) := by
  rw [parseStrBody.eq_def]; simp

theorem parseStrBody_plain (c : Char) (rest : Str) (h1 : ¬c = '"') (h2 : ¬c = '\\') :
    parseStrBody (c :: rest) = (parseStrBody rest).map fun p => (c :: p.1, p.2) := by
  rw [parseStrBody.eq_def]; simp [h1, h2]

theorem parseStrBody_esc (e : Char) (rest : Str) (he : ¬e = 'u') :
    parseStrBody ('\\' :: e :: rest)
      = (escCharOf e).bind fun d => (parseStrBody rest).map fun p => (d :: p.1, p.2) := by
  rw [parseStrBody.eq_def]; simp [he]

theorem parseStrBody_escU (a b x y : Char) (rest : Str) :
    parseStrBody ('\\' :: 'u' :: a :: b :: x :: y :: rest)
      = if isHexChar a && isHexChar b && isHexChar x && isHexChar y then
          (parseStrBody rest).map fun p =>
            (Char.ofNat (hexVal a * 4096 + hexVal b * 256 + hexVal x * 16 + hexVal y) :: p.1, p.2)
        else none := by
  rw [parseStrBody.eq_def]; simp

theorem parseStrBody_escString (s : Str) (rest : Str) :
    parseStrBody (escString s ++ '"' :: rest) = some (s, rest) := by
  induction s with
  | nil => simpa [escString] using parseStrBody_quote rest
  | cons c cs ih =>
    by_cases h1 : c = '"'
    · subst h1
      simp only [escString, escapeChar, ite_true, List.cons_append,
        parseStrBody_esc '"' _ (by decide)]
      simp [escCharOf, ih]
    · by_cases h2 : c = '\\'
      · subst h2
        simp only [escString, escapeChar, ite_true, ite_false, if_neg (by decide : ¬ '\\' = '"'),
          List.cons_append, parseStrBody_esc '\\' _ (by decide)]
        simp [escCharOf, ih]
      · by_cases h3 : c.toNat < 32
        · have hh : c.toNat / 16 < 16 := by omega
          have hl : c.toNat % 16 < 16 := Nat.mod_lt _ (by norm_num)
          simp only [escString, escapeChar, h1, h2, h3, ite_true, ite_false, if_false,
            List.cons_append, List.nil_append, parseStrBody_escU]
          rw [if_pos (by simp [isHexChar_hexDigitChar hh, isHexChar_hexDigitChar hl]; decide)]
          have hv : hexVal '0' * 4096 + hexVal '0' * 256
              + hexVal (hexDigitChar (c.toNat / 16)) * 16 + hexVal (hexDigitChar (c.toNat % 16))
              = c.toNat := by
            have h0 : hexVal '0' = 0 := by decide
            rw [hexVal_hexDigitChar hh, hexVal_hexDigitChar hl, h0]
            omega
          rw [hv, Char.ofNat_toNat, ih]
          rfl
        · simp [escString, escapeChar, h1, h2, h3, parseStrBody_plain c _ h1 h2, ih]

theorem jsize_pos (v : Json) : 1 ≤ jsize v := by
  cases v <;> simp [jsize]

theorem headDelim_notDigit (rest : Str) (h : headDelim rest) : headNotDigit rest := by
  cases rest with
  | nil => trivial
  | cons c cs =>
    simp only [headDelim] at h
    simp only [headNotDigit]
    rcases h with h | h | h <;> subst h <;> decide

theorem printJson_cons (v : Json) : ∃ c cs, printJson v = c :: cs ∧
    (c = 'n' ∨ c = 't' ∨ c = 'f' ∨ c = '"' ∨ c = '[' ∨ c = lbrace ∨ c = '-' ∨ c.isDigit = true) := by
  cases v with
  | null => exact ⟨'n', _, rfl, by tauto⟩
  | bool b =>
    cases b with
    | false => exact ⟨'f', _, rfl, by tauto⟩
    | true => exact ⟨'t', _, rfl, by tauto⟩
  | num n =>
    by_cases h : n < 0
    · exact ⟨'-', printNat n.natAbs, by simp [printJson, printInt, h], by tauto⟩
    · obtain ⟨c, cs, hcons⟩ : ∃ c cs, printNat n.natAbs = c :: cs := by
        cases hh : printNat n.natAbs with
        | nil => exact absurd hh (printNat_ne_nil _)
        | cons c cs => exact ⟨c, cs, rfl⟩
      refine ⟨c, cs, by simp [printJson, printInt, h, hcons], Or.inr <| Or.inr <| Or.inr <|
        Or.inr <| Or.inr <| Or.inr <| Or.inr ?_⟩
      exact printNat_all_digits n.natAbs c (by simp [hcons])
  | str s => exact ⟨'"', _, rfl, by tauto⟩
  | arr es => exact ⟨'[', _, rfl, by tauto⟩
  | obj fs => exact ⟨lbrace, _, rfl, by tauto⟩

theorem printElems_cons (e : Json) (es : List Json) :
    ∃ t, printElems (e :: es) = printJson e ++ t := by
  cases es with
  | nil => exact ⟨[], by simp [printElems]⟩
  | cons e2 es2 => exact ⟨',' :: printElems (e2 :: es2), rfl⟩

theorem printFields_cons (k : Str) (v : Json) (fs : List (Str × Json)) :
    ∃ t, printFields ((k, v) :: fs) = '"' :: t := by
  cases fs with
  | nil => exact ⟨_, rfl⟩
  | cons kv2 fs2 => exact ⟨_, rfl⟩

theorem parseLit_self (ls : Str) (r : Str) : parseLit ls (ls ++ r) = some r := by
  induction ls with
  | nil => rfl
  | cons l ls ih => simp [parseLit, ih]

/-! Reduction lemmas for the fuelled parser, one per dispatch branch. -/

theorem parseVal_null (f : Nat) (r : Str) :
    parseVal (f + 1) ('n' :: (nullTail ++ r)) = some (.null, r) := by
  simp [parseVal, parsersAt, stepParsers, parseLit_self]

theorem parseVal_true (f : Nat) (r : Str) :
    parseVal (f + 1) ('t' :: (trueTail ++ r)) = some (.bool true, r) := by
  simp [parseVal, parsersAt, stepParsers, parseLit_self]

theorem parseVal_false (f : Nat) (r : Str) :
    parseVal (f + 1) ('f' :: (falseTail ++ r)) = some (.bool false, r) := by
  simp [parseVal, parsersAt, stepParsers, parseLit_self]

theorem parseVal_quote (f : Nat) (r : Str) :
    parseVal (f + 1) ('"' :: r) = (parseStrBody r).map fun p => (.str p.1, p.2) := by
  simp [parseVal, parsersAt, stepParsers]

theorem parseVal_arrNil (f : Nat) (r : Str) :
    parseVal (f + 1) ('[' :: ']' :: r) = some (.arr [], r) := by
  simp [parseVal, parsersAt, stepParsers]

theorem parseVal_arrCons (f : Nat) (d : Char) (r : Str) (hd : ¬d = ']') :
    parseVal (f + 1) ('[' :: d :: r)
      = (parseElems f (d :: r)).map fun p => (.arr p.1, p.2) := by
  simp [parseVal, parseElems, parsersAt, stepParsers, hd]

theorem parseVal_objNil (f : Nat) (r : Str) :
    parseVal (f + 1) (lbrace :: rbrace :: r) = some (.obj [], r) := by
  simp [parseVal, parsersAt, stepParsers, show ¬lbrace = 'n' from by decide,
    show ¬lbrace = 't' from by decide, show ¬lbrace = 'f' from by decide,
    show ¬lbrace = '"' from by decide, show ¬lbrace = '[' from by decide]

theorem parseVal_objCons (f : Nat) (d : Char) (r : Str) (hd : ¬d = rbrace) :
    parseVal (f + 1) (lbrace :: d :: r)
      = (parseFields f (d :: r)).map fun p => (.obj p.1, p.2) := by
  simp [parseVal, parseFields, parsersAt, stepParsers, hd,
    show ¬lbrace = 'n' from by decide, show ¬lbrace = 't' from by decide,
    show ¬lbrace = 'f' from by decide, show ¬lbrace = '"' from by decide,
    show ¬lbrace = '[' from by decide]

theorem parseVal_neg (f : Nat) (r : Str) :
    parseVal (f + 1) ('-' :: r)
      = (parseNatNum r).map fun p => (.num (-(p.1 : Int)), p.2) := by
  simp [parseVal, parsersAt, stepParsers, show ¬ '-' = lbrace from by decide]

theorem parseVal_digit (f : Nat) (c : Char) (r : Str) (hc : c.isDigit = true) :
    parseVal (f + 1) (c :: r)
      = (parseNatNum (c :: r)).map fun p => (.num (p.1 : Int), p.2) := by
  have h1 : ¬c = 'n' := fun h => absurd (h ▸ hc) (by decide)
  have h2 : ¬c = 't' := fun h => absurd (h ▸ hc) (by decide)
  have h3 : ¬c = 'f' := fun h => absurd (h ▸ hc) (by decide)
  have h4 : ¬c = '"' := fun h => absurd (h ▸ hc) (by decide)
  have h5 : ¬c = '[' := fun h => absurd (h ▸ hc) (by decide)
  have h6 : ¬c = lbrace := fun h => absurd (h ▸ hc) (by decide)
  have h7 : ¬c = '-' := fun h => absurd (h ▸ hc) (by decide)
  simp [parseVal, parsersAt, stepParsers, h1, h2, h3, h4, h5, h6, h7, hc]

theorem parseElems_succ (f : Nat) (cs : Str) :
    parseElems (f + 1) cs = (parseVal f cs).bind fun p =>
      match p.2 with
      | [] => none
      | d :: r =>
        if d = ',' then (parseElems f r).map fun q => (p.1 :: q.1, q.2)
        else if d = ']' then some ([p.1], r)
        else none := by
  simp [parseElems, parseVal, parsersAt, stepParsers]

theorem parseFields_quote (f : Nat) (r0 : Str) :
    parseFields (f + 1) ('"' :: r0) = (parseStrBody r0).bind fun pk =>
      match pk.2 with
      | [] => none
      | d :: r1 =>
        if d = ':' then
          (parseVal f r1).bind fun pv =>
            match pv.2 with
            | [] => none
            | e :: r2 =>
              if e = ',' then (parseFields f r2).map fun q => ((pk.1, pv.1) :: q.1, q.2)
              else if e = rbrace then some ([(pk.1, pv.1)], r2)
              else none
        else none := by
  simp [parseFields, parseVal, parsersAt, stepParsers]

/-- The fuelled parser inverts the printer: printed values, element
lists and member lists parse back to themselves, leaving the suffix
untouched. -/
theorem parse_print (f : Nat) :
    (∀ v rest, jsize v ≤ f → headDelim rest →
      parseVal f (printJson v ++ rest) = some (v, rest)) ∧
    (∀ es rest, es ≠ [] → esSize es ≤ f →
      parseElems f (printElems es ++ ']' :: rest) = some (es, rest)) ∧
    (∀ fs rest, fs ≠ [] → fsSize fs ≤ f →
      parseFields f (printFields fs ++ rbrace :: rest) = some (fs, rest)) := by
  induction f with
  | zero =>
    refine ⟨fun v rest hsz _ => absurd hsz (by have := jsize_pos v; omega),
      fun es rest hne hsz => ?_, fun fs rest hne hsz => ?_⟩
    · cases es with
      | nil => exact absurd rfl hne
      | cons e es => simp [esSize] at hsz
    · cases fs with
      | nil => exact absurd rfl hne
      | cons kv fs => obtain ⟨k, v⟩ := kv; simp [fsSize] at hsz
  | succ f ih =>
    obtain ⟨ihV, ihE, ihF⟩ := ih
    refine ⟨fun v rest hsz hdel => ?_, fun es rest hne hsz => ?_, fun fs rest hne hsz => ?_⟩
    · cases v with
      | null => simpa [printJson, nullTail] using parseVal_null f rest
      | bool b =>
        cases b with
        | false => simpa [printJson, falseTail] using parseVal_false f rest
        | true => simpa [printJson, trueTail] using parseVal_true f rest
      | num n =>
        by_cases h : n < 0
        · have hform : printJson (.num n) ++ rest = '-' :: (printNat n.natAbs ++ rest) := by
            simp [printJson, printInt, h]
          rw [hform, parseVal_neg,
            parseNatNum_print n.natAbs rest (headDelim_notDigit rest hdel)]
          have hval : -(n.natAbs : Int) = n := by omega
          simp only [Option.map_some', hval]
        · obtain ⟨c, cs, hcons⟩ : ∃ c cs, printNat n.natAbs = c :: cs := by
            cases hh : printNat n.natAbs with
            | nil => exact absurd hh (printNat_ne_nil _)
            | cons c cs => exact ⟨c, cs, rfl⟩
          have hc : c.isDigit = true := printNat_all_digits n.natAbs c (by simp [hcons])
          have hform : printJson (.num n) ++ rest = c :: (cs ++ rest) := by
            simp [printJson, printInt, h, hcons]
          rw [hform, parseVal_digit f c _ hc,
            show c :: (cs ++ rest) = printNat n.natAbs ++ rest by simp [hcons],
            parseNatNum_print n.natAbs rest (headDelim_notDigit rest hdel)]
          have hval : (n.natAbs : Int) = n := by omega
          simp only [Option.map_some', hval]
      | str s =>
        have hform : printJson (.str s) ++ rest = '"' :: (escString s ++ '"' :: rest) := by
          simp [printJson]
        rw [hform, parseVal_quote, parseStrBody_escString]
        rfl
      | arr es =>
        cases es with
        | nil =>
          have hform : printJson (.arr []) ++ rest = '[' :: ']' :: rest := by
            simp [printJson, printElems]
          rw [hform, parseVal_arrNil]
        | cons e es' =>
          obtain ⟨t, ht⟩ := printElems_cons e es'
          obtain ⟨c0, cs0, hc0, hshape⟩ := printJson_cons e
          have hne0 : ¬c0 = ']' := by
            rcases hshape with h | h | h | h | h | h | h | h
            · subst h; decide
            · subst h; decide
            · subst h; decide
            · subst h; decide
            · subst h; decide
            · subst h; decide
            · subst h; decide
            · intro hq; subst hq; exact absurd h (by decide)
          have hform : printJson (.arr (e :: es')) ++ rest
              = '[' :: c0 :: (cs0 ++ t ++ ']' :: rest) := by
            simp [printJson, ht, hc0]
          rw [hform, parseVal_arrCons f c0 _ hne0,
            show c0 :: (cs0 ++ t ++ ']' :: rest) = printElems (e :: es') ++ ']' :: rest by
              simp [ht, hc0],
            ihE (e :: es') rest (by simp) (by simp [jsize] at hsz; omega)]
          rfl
      | obj fs =>
        cases fs with
        | nil =>
          have hform : printJson (.obj []) ++ rest = lbrace :: rbrace :: rest := by
            simp [printJson, printFields]
          rw [hform, parseVal_objNil]
        | cons kv fs' =>
          obtain ⟨k, v⟩ := kv
          obtain ⟨t, ht⟩ := printFields_cons k v fs'
          have hne0 : ¬('"' : Char) = rbrace := by decide
          have hform : printJson (.obj ((k, v) :: fs')) ++ rest
              = lbrace :: '"' :: (t ++ rbrace :: rest) := by
            simp [printJson, ht]
          rw [hform, parseVal_objCons f '"' _ hne0,
            show ('"' : Char) :: (t ++ rbrace :: rest)
                = printFields ((k, v) :: fs') ++ rbrace :: rest by simp [ht],
            ihF ((k, v) :: fs') rest (by simp) (by simp [jsize] at hsz; omega)]
          rfl
    · cases es with
      | nil => exact absurd rfl hne
      | cons e es' =>
        have hszs : jsize e ≤ f ∧ esSize es' ≤ f := by simp [esSize] at hsz; omega
        cases es' with
        | nil =>
          rw [show printElems [e] ++ ']' :: rest = printJson e ++ ']' :: rest by
              simp [printElems],
            parseElems_succ, ihV e (']' :: rest) hszs.1 (by simp [headDelim])]
          rfl
        | cons e2 es'' =>
          rw [show printElems (e :: e2 :: es'') ++ ']' :: rest
                = printJson e ++ ',' :: (printElems (e2 :: es'') ++ ']' :: rest) by
              simp [printElems],
            parseElems_succ, ihV e _ hszs.1 (by simp [headDelim]),
            Option.some_bind]
          simp only [ite_true, if_pos rfl]
          rw [ihE (e2 :: es'') rest (by simp) hszs.2]
          rfl
    · cases fs with
      | nil => exact absurd rfl hne
      | cons kv fs' =>
        obtain ⟨k, v⟩ := kv
        have hszs : jsize v ≤ f ∧ fsSize fs' ≤ f := by simp [fsSize] at hsz; omega
        cases fs' with
        | nil =>
          rw [show printFields [(k, v)] ++ rbrace :: rest
                = '"' :: (escString k ++ '"' :: ':' :: (printJson v ++ rbrace :: rest)) by
              simp [printFields],
            parseFields_quote, parseStrBody_escString, Option.some_bind]
          simp only [if_pos rfl]
          rw [ihV v (rbrace :: rest) hszs.1 (by simp [headDelim]), Option.some_bind]
          simp [show ¬rbrace = ',' from by decide]
        | cons kv2 fs'' =>
          rw [show printFields ((k, v) :: kv2 :: fs'') ++ rbrace :: rest
                = '"' :: (escString k ++ '"' :: ':' ::
                    (printJson v ++ ',' :: (printFields (kv2 :: fs'') ++ rbrace :: rest))) by
              simp [printFields],
            parseFields_quote, parseStrBody_escString, Option.some_bind]
          simp only [if_pos rfl]
          rw [ihV v _ hszs.1 (by simp [headDelim]), Option.some_bind]
          simp only [if_pos rfl]
          rw [ihF (kv2 :: fs'') rest (by simp) hszs.2]
          rfl

theorem printInt_ne_nil (n : Int) : printInt n ≠ [] := by
  by_cases h : n < 0
  · simp [printInt, h]
  · simp [printInt, h, printNat_ne_nil]

mutual

theorem jsize_le (v : Json) : jsize v ≤ (printJson v).length := by
  cases v with
  | null => simp [jsize, printJson]
  | bool b => cases b <;> simp [jsize, printJson]
  | num n =>
    have := List.length_pos.mpr (printInt_ne_nil n)
    simp only [jsize, printJson]
    omega
  | str s => simp [jsize, printJson]
  | arr es =>
    have := esSize_le es
    simp only [jsize, printJson, List.length_cons, List.length_append]
    simp
    omega
  | obj fs =>
    have := fsSize_le fs
    simp only [jsize, printJson, List.length_cons, List.length_append]
    simp
    omega

theorem esSize_le (es : List Json) : esSize es ≤ (printElems es).length + 1 := by
  cases es with
  | nil => simp [esSize]
  | cons e es2 =>
    have h1 := jsize_le e
    cases es2 with
    | nil =>
      simp only [esSize, printElems, esSize]
      omega
    | cons e2 es3 =>
      have h2 := esSize_le (e2 :: es3)
      simp only [esSize] at h2 ⊢
      simp only [printElems, List.length_append, List.length_cons]
      omega

theorem fsSize_le (fs : List (Str × Json)) : fsSize fs ≤ (printFields fs).length + 1 := by
  cases fs with
  | nil => simp [fsSize]
  | cons kv fs2 =>
    obtain ⟨k, v⟩ := kv
    have h1 := jsize_le v
    cases fs2 with
    | nil =>
      simp only [fsSize, printFields, fsSize, List.length_append, List.length_cons]
      omega
    | cons kv2 fs3 =>
      have h2 := fsSize_le (kv2 :: fs3)
      simp only [fsSize] at h2 ⊢
      simp only [printFields, List.length_append, List.length_cons]
      omega

end

/-- `JSON.parse` inverts `JSON.stringify` on the model's value tree. -/
theorem jsonParse_print (v : Json) : jsonParse (printJson v) = some v := by
  have h := (parse_print ((printJson v).length + 1)).1 v []
    (le_trans (jsize_le v) (Nat.le_succ _)) trivial
  rw [List.append_nil] at h
  simp [jsonParse, h]

theorem readFixedNat_digits (ds : Str) (rest : Str) (acc : Nat)
    (hd : ∀ c ∈ ds, c.isDigit = true) :
    readFixedNat ds.length (ds ++ rest) acc
      = some (ds.foldl (fun a c => a * 10 + digitVal c) acc, rest) := by
  induction ds generalizing acc with
  | nil => rfl
  | cons c cs ih =>
    have hc : c.isDigit = true := hd c (by simp)
    simp only [List.length_cons, List.cons_append, readFixedNat, hc, if_true, List.foldl_cons]
    exact ih _ (fun x hx => hd x (by simp [hx]))

theorem foldl_val_zeros (z : Nat) :
    (List.replicate z '0').foldl (fun a c => a * 10 + digitVal c) 0 = 0 := by
  induction z with
  | zero => rfl
  | succ z ih => simpa [List.replicate_succ, List.foldl_cons] using ih

theorem printNat_length_le {n k : Nat} (hk : 1 ≤ k) (h : n < 10 ^ k) :
    (printNat n).length ≤ k := by
  by_cases h0 : n = 0
  · subst h0; simpa [printNat] using hk
  · simp only [printNat, h0, if_false, ite_false, List.length_map, List.length_reverse]
    rw [Nat.digits_len 10 n (by norm_num) h0]
    have : Nat.log 10 n < k := Nat.log_lt_of_lt_pow h0 h
    omega

theorem readFixedNat_padNat (k n : Nat) (hlen : (printNat n).length ≤ k) (rest : Str) :
    readFixedNat k (padNat k n ++ rest) 0 = some (n, rest) := by
  have hd : ∀ c ∈ padNat k n, c.isDigit = true := by
    intro c hc
    rcases List.mem_append.mp hc with hz | hp
    · have := List.eq_of_mem_replicate hz
      subst this; decide
    · exact printNat_all_digits n c hp
  have hl : (padNat k n).length = k := by
    simp only [padNat, List.length_append, List.length_replicate]
    omega
  have h := readFixedNat_digits (padNat k n) rest 0 hd
  rw [hl] at h
  rw [h]
  simp only [padNat, List.foldl_append, foldl_val_zeros, printNat_val]

theorem expectChar_self (e : Char) (rest : Str) : expectChar e (e :: rest) = some rest := by
  simp [expectChar]

set_option maxHeartbeats 2000000 in
/-- Parsing inverts printing for every representable timestamp, to
millisecond precision. -/
theorem parseISO_toISO (d : CalDate) (h : d.wf) : parseISO (toISOString d) = some d := by
  obtain ⟨h1, h2, h3, h4, h5, h6, h7, h8, h9⟩ := h
  have ly : (printNat d.year).length ≤ 4 := printNat_length_le (by norm_num) (by omega)
  have lmo : (printNat d.month).length ≤ 2 := printNat_length_le (by norm_num) (by omega)
  have ldy : (printNat d.day).length ≤ 2 := printNat_length_le (by norm_num) (by omega)
  have lh : (printNat d.hour).length ≤ 2 := printNat_length_le (by norm_num) (by omega)
  have lmi : (printNat d.minute).length ≤ 2 := printNat_length_le (by norm_num) (by omega)
  have lse : (printNat d.second).length ≤ 2 := printNat_length_le (by norm_num) (by omega)
  have lms : (printNat d.ms).length ≤ 3 := printNat_length_le (by norm_num) (by omega)
  conv_lhs => simp only [parseISO, toISOString, Option.bind_eq_bind']
  conv_lhs => simp only [readFixedNat_padNat 4 d.year ly, Option.some_bind']
  conv_lhs => simp only [expectChar_self, Option.some_bind']
  conv_lhs => simp only [readFixedNat_padNat 2 d.month lmo, Option.some_bind']
  conv_lhs => simp only [expectChar_self, Option.some_bind']
  conv_lhs => simp only [readFixedNat_padNat 2 d.day ldy, Option.some_bind']
  conv_lhs => simp only [expectChar_self, Option.some_bind']
  conv_lhs => simp only [readFixedNat_padNat 2 d.hour lh, Option.some_bind']
  conv_lhs => simp only [expectChar_self, Option.some_bind']
  conv_lhs => simp only [readFixedNat_padNat 2 d.minute lmi, Option.some_bind']
  conv_lhs => simp only [expectChar_self, Option.some_bind']
  conv_lhs => simp only [readFixedNat_padNat 2 d.second lse, Option.some_bind']
  conv_lhs => simp only [expectChar_self, Option.some_bind']
  conv_lhs => simp only [readFixedNat_padNat 3 d.ms lms, Option.some_bind']
  conv_lhs => simp only [expectChar_self, Option.some_bind']
  rw [if_pos (show CalDate.wf ⟨d.year, d.month, d.day, d.hour, d.minute, d.second, d.ms⟩ from
    ⟨h1, h2, h3, h4, h5, h6, h7, h8, h9⟩)]

/-! ## Observations on the map operations -/

theorem mapGet_mapSet_self {α β : Type} [DecidableEq α] (m : List (α × β)) (k : α) (v : β) :
    mapGet (mapSet m k v) k = some v := by
  induction m with
  | nil => simp [mapSet, mapGet]
  | cons p t ih =>
    obtain ⟨k0, v0⟩ := p
    by_cases h : k0 = k
    · simp [mapSet, h, mapGet]
    · simp [mapSet, h, mapGet, ih]

theorem mapGet_mapSet_other {α β : Type} [DecidableEq α] (m : List (α × β)) (k k2 : α)
    (v : β) (h : ¬k2 = k) : mapGet (mapSet m k v) k2 = mapGet m k2 := by
  have hk : ¬k = k2 := fun e => h e.symm
  induction m with
  | nil => simp [mapSet, mapGet, hk]
  | cons p t ih =>
    obtain ⟨k0, v0⟩ := p
    by_cases h0 : k0 = k
    · subst h0
      simp [mapSet, mapGet, hk]
    · simp [mapSet, mapGet, h0, ih]

theorem mapSet_length_mem {α β : Type} [DecidableEq α] (m : List (α × β)) (k : α) (v : β)
    (h : k ∈ m.map Prod.fst) : (mapSet m k v).length = m.length := by
  induction m with
  | nil => simp at h
  | cons p t ih =>
    obtain ⟨k0, v0⟩ := p
    by_cases h0 : k0 = k
    · simp [mapSet, h0]
    · rw [List.map_cons, List.mem_cons] at h
      rcases h with h | h
      · simp only at h
        exact absurd h.symm h0
      · simp [mapSet, h0, ih h]

theorem mapSet_key_mem {α β : Type} [DecidableEq α] (m : List (α × β)) (k : α) (v : β) :
    k ∈ (mapSet m k v).map Prod.fst := by
  induction m with
  | nil => simp [mapSet]
  | cons p t ih =>
    obtain ⟨k0, v0⟩ := p
    by_cases h0 : k0 = k
    · simp [mapSet, h0]
    · simp only [mapSet, h0, if_false, ite_false, List.map_cons, List.mem_cons]
      exact Or.inr ih

theorem mapSet_keys_subset {α β : Type} [DecidableEq α] (m : List (α × β)) (k : α) (v : β) :
    ∀ k2 ∈ (mapSet m k v).map Prod.fst, k2 ∈ m.map Prod.fst ∨ k2 = k := by
  induction m with
  | nil => simp [mapSet]
  | cons p t ih =>
    obtain ⟨k0, v0⟩ := p
    intro k2 hk2
    by_cases h0 : k0 = k
    · simp only [mapSet, h0, if_true, ite_true, List.map_cons, List.mem_cons] at hk2
      rcases hk2 with h | h
      · exact Or.inr h
      · exact Or.inl (by simp [h])
    · simp only [mapSet, h0, if_false, ite_false, List.map_cons, List.mem_cons] at hk2
      rcases hk2 with h | h
      · exact Or.inl (by simp [h])
      · rcases ih k2 h with h2 | h2
        · exact Or.inl (by simp [h2])
        · exact Or.inr h2

/-- `questions.some((q) => q.id === questionId)` agrees with membership
of the id among the session's question ids. -/
theorem questionExists_iff (s : InterviewSession) (qid : Str) :
    (s.questions.any fun q => q.id == qid) = true
      ↔ qid ∈ s.questions.map InterviewQuestion.id := by
  simp [List.any_eq_true, List.mem_map]

/-! ## Shapes of the manager's results -/

theorem storeAnswer_ok_eq {s s2 : InterviewSession} {qid a : Str}
    (h : storeAnswer s qid a = .ok s2) :
    s2 = { s with answers := mapSet s.answers qid a }
      ∧ qid ∈ s.questions.map InterviewQuestion.id := by
  unfold storeAnswer at h
  split at h
  · rename_i hc
    refine ⟨by injection h with h2; exact h2.symm, (questionExists_iff s qid).mp hc⟩
  · cases h

theorem storeAnswer_notFound {s : InterviewSession} {qid a : Str}
    (h : qid ∉ s.questions.map InterviewQuestion.id) :
    storeAnswer s qid a = .error (notFoundMsg qid) := by
  unfold storeAnswer
  rw [if_neg]
  intro hc
  exact h ((questionExists_iff s qid).mp hc)

theorem setCurrentQuestionIndex_ok_eq {s s2 : InterviewSession} {i : Int}
    (h : setCurrentQuestionIndex s i = .ok s2) :
    s2 = { s with currentQuestionIndex := i }
      ∧ 0 ≤ i ∧ i < (s.questions.length : Int) := by
  unfold setCurrentQuestionIndex at h
  split at h
  · cases h
  · rename_i hc
    push_neg at hc
    exact ⟨by injection h with h2; exact h2.symm, hc.1, hc.2⟩

theorem nextQuestion_ok_eq {s s2 : InterviewSession}
    (h : nextQuestion s = .ok s2) :
    s2 = { s with currentQuestionIndex := s.currentQuestionIndex + 1 }
      ∧ 0 ≤ s.currentQuestionIndex + 1
      ∧ s.currentQuestionIndex + 1 < (s.questions.length : Int) := by
  unfold nextQuestion at h
  split at h
  · cases h
  · obtain ⟨h1, h2, h3⟩ := setCurrentQuestionIndex_ok_eq h
    exact ⟨h1, h2, h3⟩

theorem previousQuestion_ok_eq {s s2 : InterviewSession}
    (h : previousQuestion s = .ok s2) :
    s2 = { s with currentQuestionIndex := s.currentQuestionIndex - 1 }
      ∧ 0 ≤ s.currentQuestionIndex - 1
      ∧ s.currentQuestionIndex - 1 < (s.questions.length : Int) := by
  unfold previousQuestion at h
  split at h
  · cases h
  · obtain ⟨h1, h2, h3⟩ := setCurrentQuestionIndex_ok_eq h
    exact ⟨h1, h2, h3⟩

/-! ## The codec inverts serialization, component by component -/

theorem asStr_str (s : Str) : asStr (.str s) = some s := rfl

theorem mapM_map_enc {α : Type} (enc : α → Json) (dec : Json → Option α)
    (l : List α) (h : ∀ a ∈ l, dec (enc a) = some a) :
    (l.map enc).mapM dec = some l := by
  induction l with
  | nil => rfl
  | cons a t ih =>
    rw [List.map_cons, List.mapM_cons, h a (by simp), ih (fun b hb => h b (by simp [hb]))]
    rfl

theorem asStrList_enc (l : List Str) : asStrList (jstrList l) = some l := by
  simp only [jstrList, asStrList]
  exact mapM_map_enc Json.str asStr l (fun a _ => rfl)

theorem decodeRole_enc (r : RoleType) : decodeRole (.str (roleTypeStr r)) = some r := by
  cases r <;> rfl

theorem decodeQuestionType_enc (t : QuestionType) :
    decodeQuestionType (.str (questionTypeStr t)) = some t := by
  cases t <;> rfl

theorem decodeExperience_enc (e : ExperienceLevel) :
    decodeExperience (.str (experienceLevelStr e)) = some e := by
  cases e <;> rfl

theorem decodePJD_enc (p : ParsedJobDescription) : decodePJD (pjdToJson p) = some p := by
  have h1 : getField (pjdToJson p) "roleType".toList = some (.str (roleTypeStr p.roleType)) := by
    simp +decide [pjdToJson, getField]
  have h2 : getField (pjdToJson p) "skills".toList = some (jstrList p.skills) := by
    simp +decide [pjdToJson, getField]
  have h3 : getField (pjdToJson p) "experienceLevel".toList
      = some (.str (experienceLevelStr p.experienceLevel)) := by
    simp +decide [pjdToJson, getField]
  have h4 : getField (pjdToJson p) "technologies".toList = some (jstrList p.technologies) := by
    simp +decide [pjdToJson, getField]
  have h5 : getField (pjdToJson p) "responsibilities".toList
      = some (jstrList p.responsibilities) := by
    simp +decide [pjdToJson, getField]
  have h6 : getField (pjdToJson p) "rawDescription".toList = some (.str p.rawDescription) := by
    simp +decide [pjdToJson, getField]
  simp only [decodePJD, h1, h2, h3, h4, h5, h6, Option.some_bind', decodeRole_enc,
    decodeExperience_enc, asStrList_enc, asStr_str, Option.bind_eq_bind']

theorem decodeQuestion_enc (q : InterviewQuestion) :
    decodeQuestion (questionToJson q) = some q := by
  have h1 : getField (questionToJson q) "id".toList = some (.str q.id) := by
    simp +decide [questionToJson, getField]
  have h2 : getField (questionToJson q) "type".toList
      = some (.str (questionTypeStr q.type)) := by
    simp +decide [questionToJson, getField]
  have h3 : getField (questionToJson q) "question".toList = some (.str q.question) := by
    simp +decide [questionToJson, getField]
  have h4 : getField (questionToJson q) "difficulty".toList
      = some (.str (experienceLevelStr q.difficulty)) := by
    simp +decide [questionToJson, getField]
  have h5 : getField (questionToJson q) "relatedSkills".toList
      = some (jstrList q.relatedSkills) := by
    simp +decide [questionToJson, getField]
  simp only [decodeQuestion, h1, h2, h3, h4, h5, Option.some_bind', decodeQuestionType_enc,
    decodeExperience_enc, asStrList_enc, asStr_str, Option.bind_eq_bind']

theorem decodeFeedback_enc (fb : AnswerFeedback) (hw : fb.timestamp.wf) :
    decodeFeedback (feedbackToJson fb) = some fb := by
  have h1 : getField (feedbackToJson fb) "questionId".toList = some (.str fb.questionId) := by
    simp +decide [feedbackToJson, getField]
  have h2 : getField (feedbackToJson fb) "score".toList = some (.num fb.score) := by
    simp +decide [feedbackToJson, getField]
  have h3 : getField (feedbackToJson fb) "strengths".toList = some (jstrList fb.strengths) := by
    simp +decide [feedbackToJson, getField]
  have h4 : getField (feedbackToJson fb) "improvements".toList
      = some (jstrList fb.improvements) := by
    simp +decide [feedbackToJson, getField]
  have h5 : getField (feedbackToJson fb) "timestamp".toList
      = some (.str (toISOString fb.timestamp)) := by
    simp +decide [feedbackToJson, getField]
  simp only [decodeFeedback, h1, h2, h3, h4, h5, Option.some_bind', asStrList_enc,
    asStr_str, asNum, parseISO_toISO fb.timestamp hw, Option.bind_eq_bind']

theorem decodeSessionFeedback_enc (sf : SessionFeedback) :
    decodeSessionFeedback (sessionFeedbackToJson sf) = some sf := by
  have h1 : getField (sessionFeedbackToJson sf) "overallScore".toList
      = some (.num sf.overallScore) := by
    simp +decide [sessionFeedbackToJson, getField]
  have h2 : getField (sessionFeedbackToJson sf) "performanceSummary".toList
      = some (.obj [("behavioral".toList, .num sf.performanceSummary.behavioral),
          ("technical".toList, .num sf.performanceSummary.technical),
          ("systemDesign".toList, .num sf.performanceSummary.systemDesign)]) := by
    simp +decide [sessionFeedbackToJson, getField]
  have h3 : getField (sessionFeedbackToJson sf) "strongestAreas".toList
      = some (jstrList sf.strongestAreas) := by
    simp +decide [sessionFeedbackToJson, getField]
  have h4 : getField (sessionFeedbackToJson sf) "improvementAreas".toList
      = some (jstrList sf.improvementAreas) := by
    simp +decide [sessionFeedbackToJson, getField]
  have h5 : getField (sessionFeedbackToJson sf) "recommendations".toList
      = some (jstrList sf.recommendations) := by
    simp +decide [sessionFeedbackToJson, getField]
  have hb : getField (.obj [("behavioral".toList, .num sf.performanceSummary.behavioral),
      ("technical".toList, .num sf.performanceSummary.technical),
      ("systemDesign".toList, .num sf.performanceSummary.systemDesign)]) "behavioral".toList
      = some (.num sf.performanceSummary.behavioral) := by
    simp +decide [getField]
  have ht : getField (.obj [("behavioral".toList, .num sf.performanceSummary.behavioral),
      ("technical".toList, .num sf.performanceSummary.technical),
      ("systemDesign".toList, .num sf.performanceSummary.systemDesign)]) "technical".toList
      = some (.num sf.performanceSummary.technical) := by
    simp +decide [getField]
  have hs : getField (.obj [("behavioral".toList, .num sf.performanceSummary.behavioral),
      ("technical".toList, .num sf.performanceSummary.technical),
      ("systemDesign".toList, .num sf.performanceSummary.systemDesign)]) "systemDesign".toList
      = some (.num sf.performanceSummary.systemDesign) := by
    simp +decide [getField]
  simp only [decodeSessionFeedback, h1, h2, h3, h4, h5, hb, ht, hs, Option.some_bind',
    asStrList_enc, asNum, Option.bind_eq_bind']

theorem decodeAnswerPair_enc (p : Str × Str) :
    decodeAnswerPair (.arr [.str p.1, .str p.2]) = some p := rfl

theorem decodeFeedbackPair_enc (p : Str × AnswerFeedback) (hw : p.2.timestamp.wf) :
    decodeFeedbackPair (.arr [.str p.1, feedbackToJson p.2]) = some p := by
  simp [decodeFeedbackPair, asStr_str, decodeFeedback_enc p.2 hw]

theorem mapSet_append {α β : Type} [DecidableEq α] (m : List (α × β)) (k : α) (v : β)
    (h : k ∉ m.map Prod.fst) : mapSet m k v = m ++ [(k, v)] := by
  induction m with
  | nil => rfl
  | cons p t ih =>
    obtain ⟨k0, v0⟩ := p
    rw [List.map_cons, List.mem_cons] at h
    push_neg at h
    have hk : ¬k0 = k := fun e => h.1 (by simp [e])
    simp [mapSet, hk, ih h.2]

theorem foldl_mapSet_append {α β : Type} [DecidableEq α] (m : List (α × β)) :
    ∀ acc : List (α × β), (m.map Prod.fst).Nodup →
      (∀ k ∈ m.map Prod.fst, k ∉ acc.map Prod.fst) →
      m.foldl (fun mm p => mapSet mm p.1 p.2) acc = acc ++ m := by
  induction m with
  | nil => intro acc _ _; simp
  | cons p t ih =>
    intro acc hn hd
    obtain ⟨k, v⟩ := p
    have hset : mapSet acc k v = acc ++ [(k, v)] := mapSet_append acc k v (hd k (by simp))
    have hn2 : (List.map Prod.fst t).Nodup := by
      rw [List.map_cons, List.nodup_cons] at hn
      exact hn.2
    have hd2 : ∀ k2 ∈ List.map Prod.fst t, k2 ∉ List.map Prod.fst (acc ++ [(k, v)]) := by
      intro k2 hk2
      have h1 : k2 ∉ List.map Prod.fst acc := hd k2 (by simp [hk2])
      have h2 : ¬k2 = k := by
        rw [List.map_cons, List.nodup_cons] at hn
        exact fun e => hn.1 (e ▸ hk2)
      simp [h1, h2]
    simp only [List.foldl_cons, hset]
    rw [ih (acc ++ [(k, v)]) hn2 hd2]
    simp

/-- `new Map(m.entries())` rebuilds the same association list when the
keys are distinct (which every map built by the manager is). -/
theorem mapFromPairs_self {α β : Type} [DecidableEq α] (m : List (α × β))
    (hn : (m.map Prod.fst).Nodup) : mapFromPairs m = m := by
  simpa [mapFromPairs] using foldl_mapSet_append m [] hn (by simp)

theorem padNat_ne_nil (w n : Nat) : padNat w n ≠ [] := by
  simp [padNat, printNat_ne_nil]

theorem toISOString_ne_nil (d : CalDate) : toISOString d ≠ [] := by
  simp [toISOString, padNat_ne_nil]

theorem except_ok_bind {α β : Type} (a : α) (f : α → Except Str β) :
    (Except.ok a : Except Str α) >>= f = f a := rfl

theorem orFail_some {α : Type} (a : α) (m : Str) : orFail (some a) m = .ok a := rfl

theorem pure_ok {α : Type} (a : α) : (pure a : Except Str α) = .ok a := rfl

theorem jsTruthy_arr (es : List Json) : jsTruthy (some (.arr es)) = true := rfl

theorem jsTruthy_jnull : jsTruthy (some .null) = false := rfl

theorem jsTruthy_isoStr (c : CalDate) : jsTruthy (some (.str (toISOString c))) = true := by
  simp [jsTruthy, toISOString_ne_nil c]

theorem sessionField_id (s : InterviewSession) :
    getField (sessionToJson s) "id".toList = some (.str s.id) := by
  simp +decide [sessionToJson, getField]

theorem sessionField_pjd (s : InterviewSession) :
    getField (sessionToJson s) "parsedJD".toList = some (pjdToJson s.parsedJD) := by
  simp +decide [sessionToJson, getField]

theorem sessionField_questions (s : InterviewSession) :
    getField (sessionToJson s) "questions".toList
      = some (.arr (s.questions.map questionToJson)) := by
  simp +decide [sessionToJson, getField]

theorem sessionField_answers (s : InterviewSession) :
    getField (sessionToJson s) "answers".toList
      = some (.arr (s.answers.map fun p => .arr [.str p.1, .str p.2])) := by
  simp +decide [sessionToJson, getField]

theorem sessionField_feedback (s : InterviewSession) :
    getField (sessionToJson s) "feedback".toList
      = some (.arr (s.feedback.map fun p => .arr [.str p.1, feedbackToJson p.2])) := by
  simp +decide [sessionToJson, getField]

theorem sessionField_sessionFeedback (s : InterviewSession) :
    getField (sessionToJson s) "sessionFeedback".toList
      = some (match s.sessionFeedback with
          | none => .null
          | some sf => sessionFeedbackToJson sf) := by
  simp +decide [sessionToJson, getField]

theorem sessionField_cqi (s : InterviewSession) :
    getField (sessionToJson s) "currentQuestionIndex".toList
      = some (.num s.currentQuestionIndex) := by
  simp +decide [sessionToJson, getField]

theorem sessionField_isComplete (s : InterviewSession) :
    getField (sessionToJson s) "isComplete".toList = some (.bool s.isComplete) := by
  simp +decide [sessionToJson, getField]

theorem sessionField_createdAt (s : InterviewSession) :
    getField (sessionToJson s) "createdAt".toList = some (.str (toISOString s.createdAt)) := by
  simp +decide [sessionToJson, getField]

theorem sessionField_completedAt (s : InterviewSession) :
    getField (sessionToJson s) "completedAt".toList
      = some (match s.completedAt with
          | none => .null
          | some c => .str (toISOString c)) := by
  simp +decide [sessionToJson, getField]

/-- C1 — Round-trip law: for every session value satisfying the Data
Model invariants, `deserializeSession (serializeSession s)` succeeds
and is structurally equal to `s`: the answer and feedback associations
are rebuilt from their pair lists, every timestamp (including nested
per-answer feedback timestamps) is recovered to millisecond precision,
and the optional session feedback is preserved. -/
theorem deserialize_serialize_roundTrip (s : InterviewSession) (h : sessionWf s) :
    deserializeSession (serializeSession s) = .ok s := by
  obtain ⟨hid, _, _, _, _, hanodup, hfnodup, _, _, hcwf, hcowf, hfwf⟩ := h
  have t1 : jsTruthy (getField (sessionToJson s) "id".toList) = true := by
    rw [sessionField_id]; simp [jsTruthy, hid]
  have t2 : jsTruthy (getField (sessionToJson s) "parsedJD".toList) = true := by
    rw [sessionField_pjd]; simp [jsTruthy, pjdToJson]
  have t3 : jsTruthy (getField (sessionToJson s) "questions".toList) = true := by
    rw [sessionField_questions]; simp [jsTruthy]
  have t4 : isArrJ (getField (sessionToJson s) "questions".toList) = true := by
    rw [sessionField_questions]; simp [isArrJ]
  have t5 : jsTruthy (getField (sessionToJson s) "answers".toList) = true := by
    rw [sessionField_answers]; simp [jsTruthy]
  have t6 : jsTruthy (getField (sessionToJson s) "feedback".toList) = true := by
    rw [sessionField_feedback]; simp [jsTruthy]
  have hqdec : (s.questions.map questionToJson).mapM decodeQuestion = some s.questions :=
    mapM_map_enc _ _ _ (fun q _ => decodeQuestion_enc q)
  have hadec : (s.answers.map fun p => Json.arr [.str p.1, .str p.2]).mapM decodeAnswerPair
      = some s.answers :=
    mapM_map_enc _ _ _ (fun p _ => decodeAnswerPair_enc p)
  have hfdec : (s.feedback.map fun p => Json.arr [.str p.1, feedbackToJson p.2]).mapM
      decodeFeedbackPair = some s.feedback :=
    mapM_map_enc _ _ _ (fun p hp => decodeFeedbackPair_enc p (hfwf p hp))
  conv_lhs =>
    simp only [serializeSession, deserializeSession, jsonParse_print (sessionToJson s)]
    simp only [t1, t2, t3, t4, Bool.not_true, Bool.or_self, Bool.false_or, Bool.or_false,
      Bool.false_eq_true, if_false]
  cases hco : s.completedAt with
  | none =>
    cases hsf : s.sessionFeedback with
    | none =>
      conv_lhs =>
        simp only [sessionField_id, sessionField_pjd, sessionField_questions,
          sessionField_answers, sessionField_feedback, sessionField_sessionFeedback,
          sessionField_cqi, sessionField_isComplete, sessionField_createdAt,
          sessionField_completedAt, hco, hsf, asStr_str, decodePJD_enc, hqdec, hadec,
          hfdec, orFail_some, except_ok_bind, pure_ok, jsTruthy_arr, jsTruthy_jnull,
          parseISO_toISO s.createdAt hcwf, Option.bind_eq_bind', Option.some_bind',
          Option.map_some', Bool.true_eq_false, if_false, if_true,
          mapFromPairs_self s.answers hanodup, mapFromPairs_self s.feedback hfnodup]
      rw [← hco, ← hsf]
    | some sf =>
      obtain ⟨fsj, hfsj⟩ : ∃ fsj, sessionFeedbackToJson sf = Json.obj fsj := ⟨_, rfl⟩
      have hdecsf : decodeSessionFeedback (Json.obj fsj) = some sf := by
        rw [← hfsj]; exact decodeSessionFeedback_enc sf
      conv_lhs =>
        simp only [sessionField_id, sessionField_pjd, sessionField_questions,
          sessionField_answers, sessionField_feedback, sessionField_sessionFeedback,
          sessionField_cqi, sessionField_isComplete, sessionField_createdAt,
          sessionField_completedAt, hco, hsf, hfsj, hdecsf, asStr_str, decodePJD_enc,
          hqdec, hadec, hfdec, orFail_some, except_ok_bind, pure_ok, jsTruthy_arr,
          jsTruthy_jnull, parseISO_toISO s.createdAt hcwf, Option.bind_eq_bind',
          Option.some_bind', Option.map_some', Bool.true_eq_false, if_false, if_true,
          mapFromPairs_self s.answers hanodup, mapFromPairs_self s.feedback hfnodup]
      rw [← hco, ← hsf]
  | some c =>
    have hcw : c.wf := hcowf c hco
    cases hsf : s.sessionFeedback with
    | none =>
      conv_lhs =>
        simp only [sessionField_id, sessionField_pjd, sessionField_questions,
          sessionField_answers, sessionField_feedback, sessionField_sessionFeedback,
          sessionField_cqi, sessionField_isComplete, sessionField_createdAt,
          sessionField_completedAt, hco, hsf, asStr_str, decodePJD_enc, hqdec, hadec,
          hfdec, orFail_some, except_ok_bind, pure_ok, jsTruthy_arr, jsTruthy_jnull,
          jsTruthy_isoStr c, parseISO_toISO s.createdAt hcwf, parseISO_toISO c hcw,
          Option.bind_eq_bind', Option.some_bind', Option.map_some',
          Bool.true_eq_false, if_false, if_true,
          mapFromPairs_self s.answers hanodup, mapFromPairs_self s.feedback hfnodup]
      rw [← hco, ← hsf]
    | some sf =>
      obtain ⟨fsj, hfsj⟩ : ∃ fsj, sessionFeedbackToJson sf = Json.obj fsj := ⟨_, rfl⟩
      have hdecsf : decodeSessionFeedback (Json.obj fsj) = some sf := by
        rw [← hfsj]; exact decodeSessionFeedback_enc sf
      conv_lhs =>
        simp only [sessionField_id, sessionField_pjd, sessionField_questions,
          sessionField_answers, sessionField_feedback, sessionField_sessionFeedback,
          sessionField_cqi, sessionField_isComplete, sessionField_createdAt,
          sessionField_completedAt, hco, hsf, hfsj, hdecsf, asStr_str, decodePJD_enc,
          hqdec, hadec, hfdec, orFail_some, except_ok_bind, pure_ok, jsTruthy_arr,
          jsTruthy_jnull, jsTruthy_isoStr c, parseISO_toISO s.createdAt hcwf,
          parseISO_toISO c hcw, Option.bind_eq_bind', Option.some_bind',
          Option.map_some', Bool.true_eq_false, if_false, if_true,
          mapFromPairs_self s.answers hanodup, mapFromPairs_self s.feedback hfnodup]
      rw [← hco, ← hsf]

/-- C1 (witness) — the round-trip law evaluated on a concrete completed
session with answers, feedback, nested timestamps and session
feedback. -/
theorem deserialize_serialize_roundTrip_witness :
    sessionWf exSessionFull
      ∧ deserializeSession (serializeSession exSessionFull) = .ok exSessionFull :=
  ⟨by decide, deserialize_serialize_roundTrip exSessionFull (by decide)⟩

/-- C2 — `storeAnswer` fails with the not-found error when the id is
not among the session's questions (the input value is unchanged, the
embedding being pure); otherwise it succeeds with the answer
association updated at that key (insert or overwrite) and every other
field and association entry unchanged.  The embedding is a pure
function, which is the formal reading of "performs no I/O". -/
theorem storeAnswer_spec (s : InterviewSession) (q t : Str) :
    (q ∉ s.questions.map InterviewQuestion.id →
      storeAnswer s q t = .error (notFoundMsg q)) ∧
    (q ∈ s.questions.map InterviewQuestion.id →
      ∃ s2, storeAnswer s q t = .ok s2 ∧
        mapGet s2.answers q = some t ∧
        (∀ q2, ¬q2 = q → mapGet s2.answers q2 = mapGet s.answers q2) ∧
        s2.id = s.id ∧ s2.parsedJD = s.parsedJD ∧ s2.questions = s.questions ∧
        s2.feedback = s.feedback ∧ s2.sessionFeedback = s.sessionFeedback ∧
        s2.currentQuestionIndex = s.currentQuestionIndex ∧
        s2.isComplete = s.isComplete ∧ s2.createdAt = s.createdAt ∧
        s2.completedAt = s.completedAt) := by
  constructor
  · intro h
    exact storeAnswer_notFound h
  · intro h
    refine ⟨{ s with answers := mapSet s.answers q t }, ?_, mapGet_mapSet_self _ _ _,
      fun q2 h2 => mapGet_mapSet_other _ _ _ _ h2, rfl, rfl, rfl, rfl, rfl, rfl, rfl,
      rfl, rfl⟩
    unfold storeAnswer
    rw [if_pos ((questionExists_iff s q).mpr h)]

/-- C2 (witness) — `storeAnswer` on the concrete session: an unknown
id fails with the not-found message, a known id succeeds and the
stored text is readable back. -/
theorem storeAnswer_spec_witness :
    storeAnswer exSession "nope".toList "t".toList = .error (notFoundMsg "nope".toList) ∧
    ∃ s2, storeAnswer exSession "q-1".toList "t".toList = .ok s2 ∧
      mapGet s2.answers "q-1".toList = some "t".toList :=
  ⟨(storeAnswer_spec exSession "nope".toList "t".toList).1 (by decide),
    ((storeAnswer_spec exSession "q-1".toList "t".toList).2 (by decide)).elim
      fun s2 hs2 => ⟨s2, hs2.1, hs2.2.1⟩⟩

/-- C8 — Idempotent overwrite: storing an answer twice at the same
known id leaves the second text in the association and does not grow
its size. -/
theorem storeAnswer_overwrite (s : InterviewSession) (q t1 t2 : Str)
    (h : q ∈ s.questions.map InterviewQuestion.id) :
    ∃ s1 s2, storeAnswer s q t1 = .ok s1 ∧ storeAnswer s1 q t2 = .ok s2 ∧
      mapGet s2.answers q = some t2 ∧ s2.answers.length = s1.answers.length := by
  have hcond := (questionExists_iff s q).mpr h
  have h1 : storeAnswer s q t1 = .ok { s with answers := mapSet s.answers q t1 } := by
    unfold storeAnswer
    rw [if_pos hcond]
  have h2 : storeAnswer { s with answers := mapSet s.answers q t1 } q t2
      = .ok { s with answers := mapSet (mapSet s.answers q t1) q t2 } := by
    unfold storeAnswer
    rw [if_pos hcond]
  exact ⟨_, _, h1, h2, mapGet_mapSet_self _ _ _,
    mapSet_length_mem _ _ _ (mapSet_key_mem s.answers q t1)⟩

/-- C8 (witness) — overwriting the answer to the first concrete
question: the second text wins and the association size is unchanged. -/
theorem storeAnswer_overwrite_witness :
    ∃ s1 s2, storeAnswer exSession "q-1".toList "first".toList = .ok s1 ∧
      storeAnswer s1 "q-1".toList "second".toList = .ok s2 ∧
      mapGet s2.answers "q-1".toList = some "second".toList ∧
      s2.answers.length = s1.answers.length :=
  storeAnswer_overwrite exSession "q-1".toList "first".toList "second".toList (by decide)

/-- C7 — Navigation: on a session whose cursor satisfies the data
model bounds, `nextQuestion` fails with the last-question error exactly
when the cursor is at the last index and otherwise delegates to
`setCurrentQuestionIndex` at cursor+1; `previousQuestion` fails with
the first-question error exactly when the cursor is 0 and otherwise
delegates to `setCurrentQuestionIndex` at cursor-1.  In the failure
cases the input value is unchanged (the embedding is pure). -/
theorem navigation_spec (s : InterviewSession) (h0 : 0 ≤ s.currentQuestionIndex)
    (h1 : s.currentQuestionIndex < (s.questions.length : Int)) :
    (((s.questions.length : Int) ≤ s.currentQuestionIndex + 1 →
        nextQuestion s = .error "Already at the last question".toList) ∧
      (s.currentQuestionIndex + 1 < (s.questions.length : Int) →
        nextQuestion s = setCurrentQuestionIndex s (s.currentQuestionIndex + 1) ∧
          ∃ s2, nextQuestion s = .ok s2 ∧
            s2.currentQuestionIndex = s.currentQuestionIndex + 1) ∧
      ((∃ e, nextQuestion s = .error e) ↔
        (s.questions.length : Int) ≤ s.currentQuestionIndex + 1)) ∧
    ((s.currentQuestionIndex = 0 →
        previousQuestion s = .error "Already at the first question".toList) ∧
      (0 < s.currentQuestionIndex →
        previousQuestion s = setCurrentQuestionIndex s (s.currentQuestionIndex - 1) ∧
          ∃ s2, previousQuestion s = .ok s2 ∧
            s2.currentQuestionIndex = s.currentQuestionIndex - 1) ∧
      ((∃ e, previousQuestion s = .error e) ↔ s.currentQuestionIndex = 0)) := by
  refine ⟨⟨?_, ?_, ?_⟩, ?_, ?_, ?_⟩
  · intro h
    unfold nextQuestion
    rw [if_pos h]
  · intro h
    have hd : nextQuestion s = setCurrentQuestionIndex s (s.currentQuestionIndex + 1) := by
      unfold nextQuestion
      rw [if_neg (by omega)]
    refine ⟨hd, { s with currentQuestionIndex := s.currentQuestionIndex + 1 }, ?_, rfl⟩
    rw [hd]
    unfold setCurrentQuestionIndex
    rw [if_neg (by omega)]
  · constructor
    · rintro ⟨e, he⟩
      by_contra hc
      push_neg at hc
      have hd : nextQuestion s = setCurrentQuestionIndex s (s.currentQuestionIndex + 1) := by
        unfold nextQuestion
        rw [if_neg (by omega)]
      rw [hd] at he
      unfold setCurrentQuestionIndex at he
      rw [if_neg (by omega)] at he
      cases he
    · intro h
      exact ⟨_, by unfold nextQuestion; rw [if_pos h]⟩
  · intro h
    unfold previousQuestion
    rw [if_pos (by omega)]
  · intro h
    have hd : previousQuestion s = setCurrentQuestionIndex s (s.currentQuestionIndex - 1) := by
      unfold previousQuestion
      rw [if_neg (by omega)]
    refine ⟨hd, { s with currentQuestionIndex := s.currentQuestionIndex - 1 }, ?_, rfl⟩
    rw [hd]
    unfold setCurrentQuestionIndex
    rw [if_neg (by omega)]
  · constructor
    · rintro ⟨e, he⟩
      by_contra hc
      have hd : previousQuestion s = setCurrentQuestionIndex s (s.currentQuestionIndex - 1) := by
        unfold previousQuestion
        rw [if_neg (by omega)]
      rw [hd] at he
      unfold setCurrentQuestionIndex at he
      rw [if_neg (by omega)] at he
      cases he
    · intro h
      exact ⟨_, by unfold previousQuestion; rw [if_pos (by omega)]⟩

/-- C7 (witness) — the spec scenario: a session over the five concrete
questions moved to the last cursor; `nextQuestion` fails with the
last-question error while the session value still has that cursor, and
`previousQuestion` at cursor 0 fails with the first-question error. -/
theorem navigation_spec_witness :
    (∃ s2, setCurrentQuestionIndex exSession 4 = .ok s2 ∧
      nextQuestion s2 = .error "Already at the last question".toList ∧
      s2.currentQuestionIndex = 4) ∧
    previousQuestion exSession = .error "Already at the first question".toList := by
  constructor
  · refine ⟨{ exSession with currentQuestionIndex := 4 }, by decide, ?_, by decide⟩
    exact (navigation_spec { exSession with currentQuestionIndex := 4 }
      (by decide) (by decide)).1.1 (by decide)
  · exact (navigation_spec exSession (by decide) (by decide)).2.1 (by decide)

/-- C3 — Cursor bound invariant: every session reachable from
`createSession` by manager operations (under arbitrary gates) keeps
`0 ≤ currentQuestionIndex < len(questions)`; `setCurrentQuestionIndex`
fails with the range error exactly when the index is out of that range
(the input value unchanged, the embedding being pure), and otherwise
sets the cursor leaving every other field unchanged. -/
theorem cursor_bound_invariant :
    (∀ (cg : InterviewSession → CalDate → Prop)
        (fg : InterviewSession → AnswerFeedback → Prop) (s : InterviewSession),
      Reach cg fg s →
        0 ≤ s.currentQuestionIndex ∧ s.currentQuestionIndex < (s.questions.length : Int)) ∧
    (∀ (s : InterviewSession) (i : Int), (i < 0 ∨ (s.questions.length : Int) ≤ i) →
      setCurrentQuestionIndex s i = .error (invalidIndexMsg i s.questions.length)) ∧
    (∀ (s : InterviewSession) (i : Int), 0 ≤ i → i < (s.questions.length : Int) →
      ∃ s2, setCurrentQuestionIndex s i = .ok s2 ∧ s2.currentQuestionIndex = i ∧
        s2.id = s.id ∧ s2.parsedJD = s.parsedJD ∧ s2.questions = s.questions ∧
        s2.answers = s.answers ∧ s2.feedback = s.feedback ∧
        s2.sessionFeedback = s.sessionFeedback ∧ s2.isComplete = s.isComplete ∧
        s2.createdAt = s.createdAt ∧ s2.completedAt = s.completedAt) := by
  refine ⟨?_, ?_, ?_⟩
  · intro cg fg s h
    induction h with
    | create id pjd qs now hq =>
      simp only [createSession]
      constructor
      · omega
      · simp
        omega
    | answer qid a hr hx ih =>
      obtain ⟨he, _⟩ := storeAnswer_ok_eq hx
      subst he
      exact ih
    | feedback fb hr hg ih => exact ih
    | setIndex i hr hx ih =>
      obtain ⟨he, h1, h2⟩ := setCurrentQuestionIndex_ok_eq hx
      subst he
      exact ⟨h1, h2⟩
    | complete now hr hg ih => exact ih
    | sessionFb fb hr ih => exact ih
    | next hr hx ih =>
      obtain ⟨he, h1, h2⟩ := nextQuestion_ok_eq hx
      subst he
      exact ⟨h1, h2⟩
    | prev hr hx ih =>
      obtain ⟨he, h1, h2⟩ := previousQuestion_ok_eq hx
      subst he
      exact ⟨h1, h2⟩
  · intro s i h
    unfold setCurrentQuestionIndex
    rw [if_pos h]
  · intro s i h1 h2
    refine ⟨{ s with currentQuestionIndex := i }, ?_, rfl, rfl, rfl, rfl, rfl, rfl,
      rfl, rfl, rfl, rfl⟩
    unfold setCurrentQuestionIndex
    rw [if_neg (by omega)]

/-- C3 (witness) — the invariant on the freshly created concrete
session, the range error at index -1, and the successful move to
index 3. -/
theorem cursor_bound_invariant_witness :
    (0 ≤ exSession.currentQuestionIndex
      ∧ exSession.currentQuestionIndex < (exSession.questions.length : Int)) ∧
    setCurrentQuestionIndex exSession (-1)
      = .error (invalidIndexMsg (-1) exSession.questions.length) ∧
    ∃ s2, setCurrentQuestionIndex exSession 3 = .ok s2 ∧ s2.currentQuestionIndex = 3 :=
  ⟨cursor_bound_invariant.1 (fun _ _ => True) (fun _ _ => True) exSession
      (Reach.create "sess-0001".toList exJD exQs exDate (by decide)),
    cursor_bound_invariant.2.1 exSession (-1) (by left; decide),
    (cursor_bound_invariant.2.2 exSession 3 (by decide) (by decide)).elim
      fun s2 h => ⟨s2, h.1, h.2.1⟩⟩

/-- C4 (counterexample) — the claim fails on the code: `storeFeedback`
does not validate the id, so a session reachable by manager operations
(a `storeFeedback` with an id foreign to the session) has a feedback
association key that is not the id of any of its questions. -/
theorem storeFeedback_foreign_key_cex :
    Reach (fun _ _ => True) (fun _ _ => True)
      (storeFeedback exSession { exFeedback with questionId := "not-a-question".toList }) ∧
    ¬(∀ k ∈ (storeFeedback exSession
          { exFeedback with questionId := "not-a-question".toList }).feedback.map Prod.fst,
        k ∈ (storeFeedback exSession
          { exFeedback with questionId := "not-a-question".toList }).questions.map
            InterviewQuestion.id) :=
  ⟨Reach.feedback _ (Reach.create "sess-0001".toList exJD exQs exDate (by decide)) trivial,
    by decide⟩

/-- C4 (amended) — Key validity: for every reachable session the
answer association's keys are ids of the session's questions, under
arbitrary feedback behaviour; the feedback association's keys are ids
of the session's questions provided every `storeFeedback` step supplied
a feedback value whose embedded id belongs to the session — a
precondition the source itself does not check, so an arbitrary
`storeFeedback` can break it. -/
theorem key_validity_invariant :
    (∀ (cg : InterviewSession → CalDate → Prop)
        (fg : InterviewSession → AnswerFeedback → Prop) (s : InterviewSession),
      Reach cg fg s →
        ∀ k ∈ s.answers.map Prod.fst, k ∈ s.questions.map InterviewQuestion.id) ∧
    (∀ (cg : InterviewSession → CalDate → Prop) (s : InterviewSession),
      Reach cg (fun s0 fb => fb.questionId ∈ s0.questions.map InterviewQuestion.id) s →
        ∀ k ∈ s.feedback.map Prod.fst, k ∈ s.questions.map InterviewQuestion.id) := by
  constructor
  · intro cg fg s h
    induction h with
    | create id pjd qs now hq => simp [createSession]
    | answer qid a hr hx ih =>
      obtain ⟨he, hq⟩ := storeAnswer_ok_eq hx
      subst he
      intro k hk
      simp only at hk ⊢
      rcases mapSet_keys_subset _ _ _ k hk with h2 | h2
      · exact ih k h2
      · subst h2
        exact hq
    | feedback fb hr hg ih => exact ih
    | setIndex i hr hx ih =>
      obtain ⟨he, _, _⟩ := setCurrentQuestionIndex_ok_eq hx
      subst he
      exact ih
    | complete now hr hg ih => exact ih
    | sessionFb fb hr ih => exact ih
    | next hr hx ih =>
      obtain ⟨he, _, _⟩ := nextQuestion_ok_eq hx
      subst he
      exact ih
    | prev hr hx ih =>
      obtain ⟨he, _, _⟩ := previousQuestion_ok_eq hx
      subst he
      exact ih
  · intro cg s h
    induction h with
    | create id pjd qs now hq => simp [createSession]
    | answer qid a hr hx ih =>
      obtain ⟨he, _⟩ := storeAnswer_ok_eq hx
      subst he
      exact ih
    | feedback fb hr hg ih =>
      intro k hk
      simp only [storeFeedback] at hk ⊢
      rcases mapSet_keys_subset _ _ _ k hk with h2 | h2
      · exact ih k h2
      · subst h2
        exact hg
    | setIndex i hr hx ih =>
      obtain ⟨he, _, _⟩ := setCurrentQuestionIndex_ok_eq hx
      subst he
      exact ih
    | complete now hr hg ih => exact ih
    | sessionFb fb hr ih => exact ih
    | next hr hx ih =>
      obtain ⟨he, _, _⟩ := nextQuestion_ok_eq hx
      subst he
      exact ih
    | prev hr hx ih =>
      obtain ⟨he, _, _⟩ := previousQuestion_ok_eq hx
      subst he
      exact ih

/-- C4 (witness) — key validity evaluated over a concrete chain: an
answer stored at a known id, and a feedback stored with an id belonging
to the session. -/
theorem key_validity_invariant_witness :
    ∃ s2, storeAnswer exSession "q-2".toList "text".toList = .ok s2 ∧
      (∀ k ∈ (storeFeedback s2 exFeedback).answers.map Prod.fst,
        k ∈ (storeFeedback s2 exFeedback).questions.map InterviewQuestion.id) ∧
      (∀ k ∈ (storeFeedback s2 exFeedback).feedback.map Prod.fst,
        k ∈ (storeFeedback s2 exFeedback).questions.map InterviewQuestion.id) := by
  have h0 : storeAnswer exSession "q-2".toList "text".toList
      = .ok { exSession with answers := mapSet exSession.answers "q-2".toList "text".toList } := by
    unfold storeAnswer
    rw [if_pos (by decide)]
  have hbase : Reach (fun _ _ => True)
      (fun s0 fb => fb.questionId ∈ s0.questions.map InterviewQuestion.id)
      exSession :=
    Reach.create "sess-0001".toList exJD exQs exDate (by decide)
  have hstep := Reach.answer "q-2".toList "text".toList hbase h0
  have hfb := Reach.feedback exFeedback hstep (by decide)
  exact ⟨_, h0, key_validity_invariant.1 _ _ _ (Reach.feedback exFeedback hstep (by decide)),
    key_validity_invariant.2 _ _ hfb⟩

/-- C5 — Completion consistency: for every session reachable by
manager operations, `completedAt` is set exactly when `isComplete` is
true; under the monotone-clock hypothesis (every `completeSession`
observes a time no earlier than the session's `createdAt`),
`completedAt ≥ createdAt` whenever both are set.  `completeSession`
itself sets the flag and the timestamp and leaves every other field
unchanged. -/
theorem completion_consistency :
    (∀ (fg : InterviewSession → AnswerFeedback → Prop) (s : InterviewSession),
      Reach (fun s0 now => CalDate.le s0.createdAt now) fg s →
        ((s.isComplete = true ↔ s.completedAt ≠ none) ∧
          ∀ c, s.completedAt = some c → CalDate.le s.createdAt c)) ∧
    (∀ (s : InterviewSession) (now : CalDate),
      (completeSession s now).isComplete = true ∧
      (completeSession s now).completedAt = some now ∧
      (completeSession s now).id = s.id ∧
      (completeSession s now).parsedJD = s.parsedJD ∧
      (completeSession s now).questions = s.questions ∧
      (completeSession s now).answers = s.answers ∧
      (completeSession s now).feedback = s.feedback ∧
      (completeSession s now).sessionFeedback = s.sessionFeedback ∧
      (completeSession s now).currentQuestionIndex = s.currentQuestionIndex ∧
      (completeSession s now).createdAt = s.createdAt) := by
  constructor
  · intro fg s h
    induction h with
    | create id pjd qs now hq => simp [createSession]
    | answer qid a hr hx ih =>
      obtain ⟨he, _⟩ := storeAnswer_ok_eq hx
      subst he
      exact ih
    | feedback fb hr hg ih => exact ih
    | setIndex i hr hx ih =>
      obtain ⟨he, _, _⟩ := setCurrentQuestionIndex_ok_eq hx
      subst he
      exact ih
    | complete now hr hg ih =>
      refine ⟨by simp [completeSession], ?_⟩
      intro c hc
      simp only [completeSession] at hc ⊢
      injection hc with hc
      subst hc
      exact hg
    | sessionFb fb hr ih => exact ih
    | next hr hx ih =>
      obtain ⟨he, _, _⟩ := nextQuestion_ok_eq hx
      subst he
      exact ih
    | prev hr hx ih =>
      obtain ⟨he, _, _⟩ := previousQuestion_ok_eq hx
      subst he
      exact ih
  · intro s now
    exact ⟨rfl, rfl, rfl, rfl, rfl, rfl, rfl, rfl, rfl, rfl⟩

/-- C5 (witness) — completing the concrete session at a later clock
value: the flag and timestamp agree and the ordering holds. -/
theorem completion_consistency_witness :
    ((completeSession exSession exDate2).isComplete = true
      ↔ (completeSession exSession exDate2).completedAt ≠ none) ∧
    ∀ c, (completeSession exSession exDate2).completedAt = some c →
      CalDate.le (completeSession exSession exDate2).createdAt c :=
  completion_consistency.1 (fun _ _ => True) (completeSession exSession exDate2)
    (Reach.complete exDate2
      (Reach.create "sess-0001".toList exJD exQs exDate (by decide)) (by decide))

set_option maxRecDepth 100000 in
/-- C6 — `deserializeSession` error causes: (a) text that is not
well-formed JSON fails with a message containing "Invalid JSON format";
(b) a falsy/absent `id`, `parsedJD` or `questions`, or a non-array
`questions`, fails with a message containing "missing required fields";
(c) the unparseable-`createdAt` and unparseable-non-null-`completedAt`
wires fail with messages naming the offending field; and the two spec
scenario inputs fail with the first two causes respectively. -/
theorem deserialize_error_causes :
    (∀ w, jsonParse w = none →
      ∃ m, deserializeSession w = .error m
        ∧ hasSubstr "Invalid JSON format".toList m = true) ∧
    (∀ w data, jsonParse w = some data →
      (jsTruthy (getField data "id".toList) = false
        ∨ jsTruthy (getField data "parsedJD".toList) = false
        ∨ jsTruthy (getField data "questions".toList) = false
        ∨ isArrJ (getField data "questions".toList) = false) →
      ∃ m, deserializeSession w = .error m
        ∧ hasSubstr "missing required fields".toList m = true) ∧
    (match deserializeSession badCreatedAtWire with
      | .error m => hasSubstr "createdAt".toList m
      | .ok _ => false) = true ∧
    (match deserializeSession badCompletedAtWire with
      | .error m => hasSubstr "completedAt".toList m
      | .ok _ => false) = true ∧
    (match deserializeSession "\x7bnot json".toList with
      | .error m => hasSubstr "Invalid JSON format".toList m
      | .ok _ => false) = true ∧
    (match deserializeSession "\x7b\"id\":\"x\"\x7d".toList with
      | .error m => hasSubstr "missing required fields".toList m
      | .ok _ => false) = true := by
  refine ⟨?_, ?_, by decide, by decide, by decide, by decide⟩
  · intro w h
    refine ⟨deserMsg ("Invalid JSON format - unexpected token".toList), ?_, by decide⟩
    simp only [deserializeSession, h]
  · intro w data h hcase
    refine ⟨deserMsg "Invalid session data: missing required fields".toList, ?_, by decide⟩
    have hcond : (!(jsTruthy (getField data "id".toList))
        || !(jsTruthy (getField data "parsedJD".toList))
        || !(jsTruthy (getField data "questions".toList))
        || !(isArrJ (getField data "questions".toList))) = true := by
      rcases hcase with hc | hc | hc | hc <;>
        simp only [Bool.or_eq_true, Bool.not_eq_true'] <;> tauto
    simp only [deserializeSession, h]
    rw [if_pos hcond]

/-- C6 (witness) — the two spec scenarios through the general cases:
the brace-and-garbage text is not well-formed JSON, and the wire
holding only an id is missing required fields. -/
theorem deserialize_error_causes_witness :
    (∃ m, deserializeSession "\x7bnot json".toList = .error m
      ∧ hasSubstr "Invalid JSON format".toList m = true) ∧
    (∃ m, deserializeSession "\x7b\"id\":\"x\"\x7d".toList = .error m
      ∧ hasSubstr "missing required fields".toList m = true) :=
  ⟨deserialize_error_causes.1 "\x7bnot json".toList (by rfl),
    deserialize_error_causes.2.1 "\x7b\"id\":\"x\"\x7d".toList
      (.obj [("id".toList, .str "x".toList)]) (by rfl) (by decide)⟩

theorem decodeHistoryEntry_enc (e : SessionHistoryEntry) :
    decodeHistoryEntry (historyEntryToJson e) = some e := by
  have h1 : getField (historyEntryToJson e) "id".toList = some (.str e.id) := by
    simp +decide [historyEntryToJson, getField]
  have h2 : getField (historyEntryToJson e) "roleType".toList = some (.str e.roleType) := by
    simp +decide [historyEntryToJson, getField]
  have h3 : getField (historyEntryToJson e) "experienceLevel".toList
      = some (.str e.experienceLevel) := by
    simp +decide [historyEntryToJson, getField]
  have h4 : getField (historyEntryToJson e) "createdAt".toList = some (.str e.createdAt) := by
    simp +decide [historyEntryToJson, getField]
  have h5 : getField (historyEntryToJson e) "completedAt".toList
      = some (match e.completedAt with | none => Json.null | some t => .str t) := by
    simp +decide [historyEntryToJson, getField]
  have h6 : getField (historyEntryToJson e) "overallScore".toList
      = some (match e.overallScore with | none => Json.null | some n => .num n) := by
    simp +decide [historyEntryToJson, getField]
  cases hco : e.completedAt with
  | none =>
    cases hos : e.overallScore with
    | none =>
      simp only [decodeHistoryEntry, h1, h2, h3, h4, h5, h6, hco, hos, asStr_str,
        Option.bind_eq_bind', Option.some_bind']
      rw [← hco, ← hos]
    | some n =>
      simp only [decodeHistoryEntry, h1, h2, h3, h4, h5, h6, hco, hos, asStr_str,
        Option.bind_eq_bind', Option.some_bind']
      rw [← hco, ← hos]
  | some t =>
    cases hos : e.overallScore with
    | none =>
      simp only [decodeHistoryEntry, h1, h2, h3, h4, h5, h6, hco, hos, asStr_str,
        Option.bind_eq_bind', Option.some_bind']
      rw [← hco, ← hos]
    | some n =>
      simp only [decodeHistoryEntry, h1, h2, h3, h4, h5, h6, hco, hos, asStr_str,
        Option.bind_eq_bind', Option.some_bind']
      rw [← hco, ← hos]

theorem decodeHistory_enc (h : List SessionHistoryEntry) :
    decodeHistory (historyToJson h) = some h := by
  simp only [historyToJson, decodeHistory]
  exact mapM_map_enc _ _ _ (fun e _ => decodeHistoryEntry_enc e)

theorem readHistory_setItem (st : Storage) (txt : Str) :
    readHistory (setItem st sessionHistoryKey txt)
      = match jsonParse txt with
        | none => some []
        | some j => decodeHistory j := by
  unfold readHistory
  rw [show getItem (setItem st sessionHistoryKey txt) sessionHistoryKey = some txt
    from mapGet_mapSet_self _ _ _]

theorem upsertHistory_cons (x : SessionHistoryEntry) (t : List SessionHistoryEntry)
    (e : SessionHistoryEntry) :
    upsertHistory (x :: t) e
      = if x.id = e.id then e :: t else x :: upsertHistory t e := by
  unfold upsertHistory
  rw [List.findIdx?_cons]
  by_cases hx : x.id = e.id
  · simp [hx]
  · simp only [hx, beq_iff_eq, if_false, ite_false]
    cases hfi : t.findIdx? (fun y => y.id == e.id) with
    | none =>
      rw [List.findIdx?_succ, hfi]
      rfl
    | some i =>
      rw [List.findIdx?_succ, hfi]
      rfl

/-- The count of entries carrying the upserted id: exactly one after
the upsert when there was at most one before. -/
theorem upsertHistory_count (h : List SessionHistoryEntry) (e : SessionHistoryEntry) :
    ((upsertHistory h e).filter (fun x => x.id == e.id)).length
      = max 1 ((h.filter (fun x => x.id == e.id)).length) := by
  induction h with
  | nil => simp [upsertHistory]
  | cons x t ih =>
    rw [upsertHistory_cons]
    by_cases hx : x.id = e.id
    · simp [hx, List.filter_cons]
    · simp [hx, List.filter_cons, ih]

/-- C9 — `saveSessionToHistory` computes the summary record (keyed by
the session's id, with ISO timestamps and the optional overall score)
and upserts it into the stored history by id: the list read back from
the store after the call is exactly the upsert of the list read before,
the upsert replaces in place the entry `findIndex` locates and appends
when none exists, and the number of entries carrying the session's id
is one whenever it was at most one before — repeated calls never
duplicate an id. -/
theorem saveToHistory_spec (st : Storage) (s : InterviewSession)
    (h : List SessionHistoryEntry) (hr : readHistory st = some h) :
    getSessionHistory (saveSessionToHistory st s) = upsertHistory h (summaryOf s) ∧
    (summaryOf s).id = s.id ∧
    (∀ i, h.findIdx? (fun x => x.id == s.id) = some i →
      upsertHistory h (summaryOf s) = h.set i (summaryOf s)) ∧
    (h.findIdx? (fun x => x.id == s.id) = none →
      upsertHistory h (summaryOf s) = h ++ [summaryOf s]) ∧
    ((upsertHistory h (summaryOf s)).filter (fun x => x.id == s.id)).length
      = max 1 ((h.filter (fun x => x.id == s.id)).length) := by
  refine ⟨?_, rfl, ?_, ?_, upsertHistory_count h (summaryOf s)⟩
  · have hsave : saveSessionToHistory st s
        = setItem st sessionHistoryKey
            (printJson (historyToJson (upsertHistory h (summaryOf s)))) := by
      unfold saveSessionToHistory
      rw [hr]
    rw [hsave]
    unfold getSessionHistory
    rw [readHistory_setItem, jsonParse_print]
    show (decodeHistory (historyToJson (upsertHistory h (summaryOf s)))).getD []
      = upsertHistory h (summaryOf s)
    rw [decodeHistory_enc]
    rfl
  · intro i hi
    unfold upsertHistory
    rw [show (summaryOf s).id = s.id from rfl, hi]
  · intro hn
    unfold upsertHistory
    rw [show (summaryOf s).id = s.id from rfl, hn]

/-- C9 (witness) — two successive saves of the same concrete session
into an empty store: the first appends the summary, the second updates
it in place, and exactly one entry with the session's id remains. -/
theorem saveToHistory_spec_witness :
    getSessionHistory (saveSessionToHistory ([] : Storage) exSessionFull)
        = upsertHistory [] (summaryOf exSessionFull) ∧
    getSessionHistory
        (saveSessionToHistory (saveSessionToHistory ([] : Storage) exSessionFull)
          exSessionFull)
      = upsertHistory (upsertHistory [] (summaryOf exSessionFull))
          (summaryOf exSessionFull) ∧
    ((upsertHistory (upsertHistory [] (summaryOf exSessionFull))
        (summaryOf exSessionFull)).filter
      (fun x => x.id == exSessionFull.id)).length = 1 :=
  ⟨(saveToHistory_spec ([] : Storage) exSessionFull [] rfl).1,
    (saveToHistory_spec (saveSessionToHistory ([] : Storage) exSessionFull) exSessionFull
      (upsertHistory [] (summaryOf exSessionFull))
      (by
        rw [show saveSessionToHistory ([] : Storage) exSessionFull
            = setItem [] sessionHistoryKey
                (printJson (historyToJson (upsertHistory [] (summaryOf exSessionFull))))
          from rfl]
        rw [readHistory_setItem, jsonParse_print]
        show decodeHistory (historyToJson (upsertHistory [] (summaryOf exSessionFull)))
          = some (upsertHistory [] (summaryOf exSessionFull))
        rw [decodeHistory_enc])).1,
    by decide⟩

set_option maxRecDepth 100000 in
/-- C10 — `deserializeSession` validates only JSON well-formedness,
the presence of `id`/`parsedJD`/`questions` and the two timestamps: it
re-checks none of the data-model invariants, so a well-formed wire
yields a session whose cursor lies past the question sequence and
whose answer key belongs to no question, and on that session
`getCurrentQuestion`'s unguarded index falls outside the sequence
(JavaScript's `undefined`, modelled as `none`). -/
theorem deserialize_skips_invariant_checks :
    ∃ sess, deserializeSession invalidWire = .ok sess ∧
      (sess.questions.length : Int) ≤ sess.currentQuestionIndex ∧
      (∃ k ∈ sess.answers.map Prod.fst, k ∉ sess.questions.map InterviewQuestion.id) ∧
      getCurrentQuestion sess = none := by
  refine ⟨invalidSess, by decide, by decide, ?_, by decide⟩
  exact ⟨"zzz".toList, by decide, by decide⟩

end MockMatch
